import Mathlib

/-!
# go-stremio: manifest deep copy and the custom example addon

Shallow embedding of

* `src/types.go`: `Manifest`, `ResourceItem`, `CatalogItem`, `ExtraItem`, `BehaviorHints`
  and their `clone` methods;
* `src/examples/custom/main.go`: the manifest callback, the movie stream handler and the
  request counting middleware;
* `src/pkg/cinemeta/types.go`: `mediaType.String`.

Go slices are headers (backing array, offset, length, capacity) into a heap of backing
arrays, so that aliasing between a manifest and its clone can be stated. The heap has one
region per element type. A `nil` slice is its own header value, distinct from an empty
non-nil slice. The strings that the middleware takes from `c.OriginalURL()` are likewise
headers into the request's URI buffer, which the next request overwrites. A run-time panic
is the result `none`.
-/

namespace Stremio

/-! ## Slices and backing arrays -/

/-- Go slice header: either the `nil` slice, or a window `[off, off+len)` (capacity `cap`)
of the backing array with address `arr`. -/
inductive Slice where
  | nil : Slice
  | mk (arr off len cap : Nat) : Slice
  deriving DecidableEq, Repr

/-- Go `len(s)`. -/
def Slice.length : Slice → Nat
  | .nil => 0
  | .mk _ _ len _ => len

/-- Backing arrays of one element type, addressed by position. -/
abbrev Region (α : Type) := List (List α)

/-- Go `s[i]` as an rvalue; `none` is the run-time panic (index out of range). -/
def Region.index {α : Type} (r : Region α) : Slice → Nat → Option α
  | .nil, _ => none
  | .mk a off len _, i =>
    if i < len then
      match r[a]? with
      | some arr => arr[off + i]?
      | none => none
    else none

/-- Go `s[i] = v`; `none` is the run-time panic (index out of range). -/
def Region.assign {α : Type} (r : Region α) : Slice → Nat → α → Option (Region α)
  | .nil, _, _ => none
  | .mk a off len _, i, v =>
    if i < len then
      match r[a]? with
      | some arr => if off + i < arr.length then some (r.set a (arr.set (off + i) v)) else none
      | none => none
    else none

/-- Go `make([]T, n)`: a fresh backing array of `n` zero values and a slice over all of it. -/
def Region.make {α : Type} (r : Region α) (zero : α) (n : Nat) : Slice × Region α :=
  (.mk r.length 0 n n, r ++ [List.replicate n zero])

/-- The elements `s[0], ..., s[len(s)-1]` as stored in the region. -/
def Region.elems {α : Type} (r : Region α) : Slice → List α
  | .nil => []
  | .mk a off len _ => ((r.getD a []).drop off).take len

/-- Go `for i := range n` over a state: runs `body 0`, ..., `body (n-1)` in order and stops
at the first panic. -/
def forRange {σ : Type} (body : Nat → σ → Option σ) : Nat → σ → Option σ
  | 0, s => some s
  | n + 1, s => (forRange body n s).bind (body n)

/-! ## `src/types.go` -/

structure ResourceItem where
  Name : String
  Types : Slice
  IDprefixes : Slice
  deriving DecidableEq, Repr

structure BehaviorHints where
  Adult : Bool
  P2P : Bool
  Configurable : Bool
  ConfigurationRequired : Bool
  deriving DecidableEq, Repr

structure ExtraItem where
  Name : String
  IsRequired : Bool
  Options : Slice
  OptionsLimit : Int
  deriving DecidableEq, Repr

/-- Go `CatalogItem`; the field `Type` is spelled `Typ` (`Type` is reserved). -/
structure CatalogItem where
  Typ : String
  ID : String
  Name : String
  Extra : Slice
  deriving DecidableEq, Repr

structure Manifest where
  ID : String
  Name : String
  Description : String
  Version : String
  ResourceItems : Slice
  Types : Slice
  Catalogs : Slice
  IDprefixes : Slice
  Background : String
  Logo : String
  ContactEmail : String
  BehaviorHints : BehaviorHints
  deriving DecidableEq, Repr

/-- The backing arrays of the four slice element types that a manifest reaches. -/
structure Heap where
  strings : Region String
  extraItems : Region ExtraItem
  catalogItems : Region CatalogItem
  resourceItems : Region ResourceItem
  deriving DecidableEq, Repr

/-- Zero value of `ResourceItem`. -/
def ResourceItem.zero : ResourceItem := ⟨"", .nil, .nil⟩

/-- Zero value of `ExtraItem`. -/
def ExtraItem.zero : ExtraItem := ⟨"", false, .nil, 0⟩

/-- Zero value of `CatalogItem`. -/
def CatalogItem.zero : CatalogItem := ⟨"", "", "", .nil⟩

/-- The `[]string` copy block that `clone` repeats for `Types`, `IDprefixes` and `Options`:
```go
var types []string
if src != nil {
	types = make([]string, len(src))
	for i, t := range src {
		types[i] = t
	}
}
```
-/
def cloneStrings (src : Slice) (h : Heap) : Option (Slice × Heap) :=
  match src with
  | .nil => some (.nil, h)
  | .mk a off len cap =>
    let (dst, strs) := h.strings.make "" len
    (forRange
        (fun i r => (r.index (.mk a off len cap) i).bind (fun t => r.assign dst i t))
        len strs).map
      (fun strs1 => (dst, { h with strings := strs1 }))

/-- Go `func (ri ResourceItem) clone() ResourceItem`. -/
def ResourceItem.clone (ri : ResourceItem) (h : Heap) : Option (ResourceItem × Heap) :=
  (cloneStrings ri.Types h).bind fun (types, h1) =>
  (cloneStrings ri.IDprefixes h1).bind fun (idPrefixes, h2) =>
  some ({ Name := ri.Name, Types := types, IDprefixes := idPrefixes }, h2)

/-- Go `func (ei ExtraItem) clone() ExtraItem`. -/
def ExtraItem.clone (ei : ExtraItem) (h : Heap) : Option (ExtraItem × Heap) :=
  (cloneStrings ei.Options h).bind fun (options, h1) =>
  some ({ Name := ei.Name, IsRequired := ei.IsRequired, Options := options,
          OptionsLimit := ei.OptionsLimit }, h1)

/-- One iteration `extras[i] = extra.clone()` of the loop in `CatalogItem.clone`. -/
def CatalogItem.cloneStep (src dst : Slice) (i : Nat) (h : Heap) : Option Heap :=
  (h.extraItems.index src i).bind fun extra =>
  (extra.clone h).bind fun (extra1, h1) =>
  (h1.extraItems.assign dst i extra1).map fun es => { h1 with extraItems := es }

/-- Go `func (ci CatalogItem) clone() CatalogItem`. -/
def CatalogItem.clone (ci : CatalogItem) (h : Heap) : Option (CatalogItem × Heap) :=
  match ci.Extra with
  | .nil => some ({ Typ := ci.Typ, ID := ci.ID, Name := ci.Name, Extra := .nil }, h)
  | .mk a off len cap =>
    let (dst, es) := h.extraItems.make ExtraItem.zero len
    (forRange (CatalogItem.cloneStep (.mk a off len cap) dst) len
        { h with extraItems := es }).map
      (fun h1 => ({ Typ := ci.Typ, ID := ci.ID, Name := ci.Name, Extra := dst }, h1))

/-- One iteration `resourceItems[i] = resourceItem.clone()`. -/
def Manifest.cloneResourceStep (src dst : Slice) (i : Nat) (h : Heap) : Option Heap :=
  (h.resourceItems.index src i).bind fun resourceItem =>
  (resourceItem.clone h).bind fun (resourceItem1, h1) =>
  (h1.resourceItems.assign dst i resourceItem1).map fun rs => { h1 with resourceItems := rs }

/-- The `ResourceItems` block of `Manifest.clone`. -/
def Manifest.cloneResourceItems (src : Slice) (h : Heap) : Option (Slice × Heap) :=
  match src with
  | .nil => some (.nil, h)
  | .mk a off len cap =>
    let (dst, rs) := h.resourceItems.make ResourceItem.zero len
    (forRange (Manifest.cloneResourceStep (.mk a off len cap) dst) len
        { h with resourceItems := rs }).map
      (fun h1 => (dst, h1))

/-- One iteration `catalogs[i] = catalog.clone()`. -/
def Manifest.cloneCatalogStep (src dst : Slice) (i : Nat) (h : Heap) : Option Heap :=
  (h.catalogItems.index src i).bind fun catalog =>
  (catalog.clone h).bind fun (catalog1, h1) =>
  (h1.catalogItems.assign dst i catalog1).map fun cs => { h1 with catalogItems := cs }

/-- The `Catalogs` block of `Manifest.clone`. -/
def Manifest.cloneCatalogs (src : Slice) (h : Heap) : Option (Slice × Heap) :=
  match src with
  | .nil => some (.nil, h)
  | .mk a off len cap =>
    let (dst, cs) := h.catalogItems.make CatalogItem.zero len
    (forRange (Manifest.cloneCatalogStep (.mk a off len cap) dst) len
        { h with catalogItems := cs }).map
      (fun h1 => (dst, h1))

/-- Go `func (m Manifest) clone() Manifest`: the four slice blocks in source order, then the
struct literal. -/
def Manifest.clone (m : Manifest) (h : Heap) : Option (Manifest × Heap) :=
  (Manifest.cloneResourceItems m.ResourceItems h).bind fun (resourceItems, h1) =>
  (cloneStrings m.Types h1).bind fun (types, h2) =>
  (Manifest.cloneCatalogs m.Catalogs h2).bind fun (catalogs, h3) =>
  (cloneStrings m.IDprefixes h3).bind fun (idPrefixes, h4) =>
  some ({ ID := m.ID, Name := m.Name, Description := m.Description, Version := m.Version,
          ResourceItems := resourceItems, Types := types, Catalogs := catalogs,
          IDprefixes := idPrefixes, Background := m.Background, Logo := m.Logo,
          ContactEmail := m.ContactEmail, BehaviorHints := m.BehaviorHints }, h4)

/-! ## `src/examples/custom/main.go`: the manifest -/

/-- Go `version`. -/
def version : String := "0.1.0"

/-- The backing arrays that the composite literal of `manifest` allocates. -/
def exampleHeap : Heap where
  strings := [["movie"], ["movie"], ["tt"]]
  extraItems := []
  catalogItems := [[]]
  resourceItems := [[{ Name := "stream", Types := .mk 0 0 1 1, IDprefixes := .nil }]]

/-- Go `manifest` of the custom example; `Catalogs` is the empty non-nil slice
`[]stremio.CatalogItem{}`. -/
def manifest : Manifest where
  ID := "com.example.blender-streams-custom"
  Name := "Custom Blender movie streams"
  Description :=
    "Stream addon for free movies that were made with Blender, customizable via user data"
  Version := version
  ResourceItems := .mk 0 0 1 1
  Types := .mk 1 0 1 1
  Catalogs := .mk 0 0 0 0
  IDprefixes := .mk 2 0 1 1
  Background := ""
  Logo := ""
  ContactEmail := ""
  BehaviorHints := ⟨false, false, false, false⟩

/-! ## Deep values, footprints and writes through a manifest -/

/-- One bound per heap region. -/
structure Bounds where
  strings : Nat
  extraItems : Nat
  catalogItems : Nat
  resourceItems : Nat
  deriving DecidableEq, Repr

/-- The number of backing arrays allocated in each region. -/
def Heap.sizes (h : Heap) : Bounds :=
  ⟨h.strings.length, h.extraItems.length, h.catalogItems.length, h.resourceItems.length⟩

/-- The bound `0` in every region. -/
def Bounds.zero : Bounds := ⟨0, 0, 0, 0⟩

/-- The slice is `nil`, or its backing array is allocated, has address in `[lo, hi)` and
contains the window `[off, off+len)`. -/
def Slice.OwnedIn {α : Type} (r : Region α) (lo hi : Nat) : Slice → Prop
  | .nil => True
  | .mk a off len _ => lo ≤ a ∧ a < hi ∧ a < r.length ∧ off + len ≤ (r.getD a []).length

instance {α : Type} (r : Region α) (lo hi : Nat) (s : Slice) :
    Decidable (Slice.OwnedIn r lo hi s) := by
  cases s <;> unfold Slice.OwnedIn <;> infer_instance

/-- What a slice denotes: `none` for the `nil` slice, else the list of its elements, each
read through `f`. -/
def Region.value {α β : Type} (r : Region α) (f : α → β) : Slice → Option (List β)
  | .nil => none
  | .mk a off len cap => some ((r.elems (.mk a off len cap)).map f)

/-- A `ResourceItem` with its slices read out of the heap. -/
structure ResourceItemValue where
  Name : String
  Types : Option (List String)
  IDprefixes : Option (List String)
  deriving DecidableEq, Repr

/-- An `ExtraItem` with its slice read out of the heap. -/
structure ExtraItemValue where
  Name : String
  IsRequired : Bool
  Options : Option (List String)
  OptionsLimit : Int
  deriving DecidableEq, Repr

/-- A `CatalogItem` with its slices read out of the heap, at every depth. -/
structure CatalogItemValue where
  Typ : String
  ID : String
  Name : String
  Extra : Option (List ExtraItemValue)
  deriving DecidableEq, Repr

/-- A `Manifest` with its slices read out of the heap, at every depth. -/
structure ManifestValue where
  ID : String
  Name : String
  Description : String
  Version : String
  ResourceItems : Option (List ResourceItemValue)
  Types : Option (List String)
  Catalogs : Option (List CatalogItemValue)
  IDprefixes : Option (List String)
  Background : String
  Logo : String
  ContactEmail : String
  BehaviorHints : BehaviorHints
  deriving DecidableEq, Repr

def Heap.resourceItemValue (h : Heap) (ri : ResourceItem) : ResourceItemValue :=
  ⟨ri.Name, h.strings.value id ri.Types, h.strings.value id ri.IDprefixes⟩

def Heap.extraItemValue (h : Heap) (ei : ExtraItem) : ExtraItemValue :=
  ⟨ei.Name, ei.IsRequired, h.strings.value id ei.Options, ei.OptionsLimit⟩

def Heap.catalogItemValue (h : Heap) (ci : CatalogItem) : CatalogItemValue :=
  ⟨ci.Typ, ci.ID, ci.Name, h.extraItems.value h.extraItemValue ci.Extra⟩

def Heap.manifestValue (h : Heap) (m : Manifest) : ManifestValue :=
  { ID := m.ID, Name := m.Name, Description := m.Description, Version := m.Version,
    ResourceItems := h.resourceItems.value h.resourceItemValue m.ResourceItems,
    Types := h.strings.value id m.Types,
    Catalogs := h.catalogItems.value h.catalogItemValue m.Catalogs,
    IDprefixes := h.strings.value id m.IDprefixes,
    Background := m.Background, Logo := m.Logo, ContactEmail := m.ContactEmail,
    BehaviorHints := m.BehaviorHints }

/-- Every backing array the resource item reaches is allocated, large enough, and has its
address in `[lo, hi)`. -/
def Heap.OwnsResourceItem (h : Heap) (lo hi : Bounds) (ri : ResourceItem) : Prop :=
  ri.Types.OwnedIn h.strings lo.strings hi.strings ∧
  ri.IDprefixes.OwnedIn h.strings lo.strings hi.strings

def Heap.OwnsExtraItem (h : Heap) (lo hi : Bounds) (ei : ExtraItem) : Prop :=
  ei.Options.OwnedIn h.strings lo.strings hi.strings

def Heap.OwnsCatalogItem (h : Heap) (lo hi : Bounds) (ci : CatalogItem) : Prop :=
  ci.Extra.OwnedIn h.extraItems lo.extraItems hi.extraItems ∧
  ∀ e ∈ h.extraItems.elems ci.Extra, h.OwnsExtraItem lo hi e

/-- Every backing array the manifest reaches, at any depth, is allocated, large enough, and
has its address in `[lo, hi)` of its region. -/
def Heap.OwnsManifest (h : Heap) (lo hi : Bounds) (m : Manifest) : Prop :=
  m.ResourceItems.OwnedIn h.resourceItems lo.resourceItems hi.resourceItems ∧
  (∀ ri ∈ h.resourceItems.elems m.ResourceItems, h.OwnsResourceItem lo hi ri) ∧
  m.Types.OwnedIn h.strings lo.strings hi.strings ∧
  m.Catalogs.OwnedIn h.catalogItems lo.catalogItems hi.catalogItems ∧
  (∀ ci ∈ h.catalogItems.elems m.Catalogs, h.OwnsCatalogItem lo hi ci) ∧
  m.IDprefixes.OwnedIn h.strings lo.strings hi.strings

/-- The manifest is a well-formed Go value in `h`: every slice it reaches is `nil` or lies
inside an allocated backing array. -/
def Heap.WellFormed (h : Heap) (m : Manifest) : Prop :=
  h.OwnsManifest Bounds.zero h.sizes m

instance (h : Heap) (lo hi : Bounds) (ri : ResourceItem) :
    Decidable (h.OwnsResourceItem lo hi ri) := by
  unfold Heap.OwnsResourceItem; infer_instance

instance (h : Heap) (lo hi : Bounds) (ei : ExtraItem) :
    Decidable (h.OwnsExtraItem lo hi ei) := by
  unfold Heap.OwnsExtraItem; infer_instance

instance (h : Heap) (lo hi : Bounds) (ci : CatalogItem) :
    Decidable (h.OwnsCatalogItem lo hi ci) := by
  unfold Heap.OwnsCatalogItem; infer_instance

instance (h : Heap) (lo hi : Bounds) (m : Manifest) :
    Decidable (h.OwnsManifest lo hi m) := by
  unfold Heap.OwnsManifest; infer_instance

instance (h : Heap) (m : Manifest) : Decidable (h.WellFormed m) := by
  unfold Heap.WellFormed; infer_instance

/-- An assignment made through a manifest variable `c`: to an element of one of the slices
it reaches, or to one of its scalar fields. -/
inductive Write where
  /-- Go `c.ResourceItems[i] = v`. -/
  | resourceItemAt (i : Nat) (v : ResourceItem)
  /-- Go `c.ResourceItems[i].Types[j] = v`. -/
  | resourceItemTypeAt (i j : Nat) (v : String)
  /-- Go `c.ResourceItems[i].IDprefixes[j] = v`. -/
  | resourceItemIDprefixAt (i j : Nat) (v : String)
  /-- Go `c.Types[i] = v`. -/
  | typeAt (i : Nat) (v : String)
  /-- Go `c.Catalogs[i] = v`. -/
  | catalogAt (i : Nat) (v : CatalogItem)
  /-- Go `c.Catalogs[i].Extra[j] = v`. -/
  | catalogExtraAt (i j : Nat) (v : ExtraItem)
  /-- Go `c.Catalogs[i].Extra[j].Options[k] = v`. -/
  | catalogExtraOptionAt (i j k : Nat) (v : String)
  /-- Go `c.IDprefixes[i] = v`. -/
  | idPrefixAt (i : Nat) (v : String)
  | setID (v : String)
  | setName (v : String)
  | setDescription (v : String)
  | setVersion (v : String)
  | setBackground (v : String)
  | setLogo (v : String)
  | setContactEmail (v : String)
  | setAdult (v : Bool)
  | setP2P (v : Bool)
  | setConfigurable (v : Bool)
  | setConfigurationRequired (v : Bool)

/-- Executes the assignment through the variable `c` in heap `h`: returns the new content
of the variable and the new heap; `none` is the index-out-of-range panic. -/
def Manifest.write (c : Manifest) (h : Heap) : Write → Option (Manifest × Heap)
  | .resourceItemAt i v =>
    (h.resourceItems.assign c.ResourceItems i v).map fun rs =>
      (c, { h with resourceItems := rs })
  | .resourceItemTypeAt i j v =>
    (h.resourceItems.index c.ResourceItems i).bind fun ri =>
    (h.strings.assign ri.Types j v).map fun ss => (c, { h with strings := ss })
  | .resourceItemIDprefixAt i j v =>
    (h.resourceItems.index c.ResourceItems i).bind fun ri =>
    (h.strings.assign ri.IDprefixes j v).map fun ss => (c, { h with strings := ss })
  | .typeAt i v =>
    (h.strings.assign c.Types i v).map fun ss => (c, { h with strings := ss })
  | .catalogAt i v =>
    (h.catalogItems.assign c.Catalogs i v).map fun cs => (c, { h with catalogItems := cs })
  | .catalogExtraAt i j v =>
    (h.catalogItems.index c.Catalogs i).bind fun ci =>
    (h.extraItems.assign ci.Extra j v).map fun es => (c, { h with extraItems := es })
  | .catalogExtraOptionAt i j k v =>
    (h.catalogItems.index c.Catalogs i).bind fun ci =>
    (h.extraItems.index ci.Extra j).bind fun ei =>
    (h.strings.assign ei.Options k v).map fun ss => (c, { h with strings := ss })
  | .idPrefixAt i v =>
    (h.strings.assign c.IDprefixes i v).map fun ss => (c, { h with strings := ss })
  | .setID v => some ({ c with ID := v }, h)
  | .setName v => some ({ c with Name := v }, h)
  | .setDescription v => some ({ c with Description := v }, h)
  | .setVersion v => some ({ c with Version := v }, h)
  | .setBackground v => some ({ c with Background := v }, h)
  | .setLogo v => some ({ c with Logo := v }, h)
  | .setContactEmail v => some ({ c with ContactEmail := v }, h)
  | .setAdult v => some ({ c with BehaviorHints := { c.BehaviorHints with Adult := v } }, h)
  | .setP2P v => some ({ c with BehaviorHints := { c.BehaviorHints with P2P := v } }, h)
  | .setConfigurable v =>
    some ({ c with BehaviorHints := { c.BehaviorHints with Configurable := v } }, h)
  | .setConfigurationRequired v =>
    some ({ c with BehaviorHints := { c.BehaviorHints with ConfigurationRequired := v } }, h)

/-- The second region holds the same backing arrays as the first at the addresses in
`[lo, hi)` that are allocated in the first. -/
def Region.AgreeOn {α : Type} (lo hi : Nat) (r r1 : Region α) : Prop :=
  ∀ a, lo ≤ a → a < hi → a < r.length → r1[a]? = r[a]?

/-- Both regions hold the same backing arrays at the addresses outside `[lo, hi)`. -/
def Region.AgreeOutside {α : Type} (lo hi : Nat) (r r1 : Region α) : Prop :=
  ∀ a, ¬ (lo ≤ a ∧ a < hi) → r1[a]? = r[a]?

def Heap.AgreeOn (lo hi : Bounds) (h h1 : Heap) : Prop :=
  Region.AgreeOn lo.strings hi.strings h.strings h1.strings ∧
  Region.AgreeOn lo.extraItems hi.extraItems h.extraItems h1.extraItems ∧
  Region.AgreeOn lo.catalogItems hi.catalogItems h.catalogItems h1.catalogItems ∧
  Region.AgreeOn lo.resourceItems hi.resourceItems h.resourceItems h1.resourceItems

def Heap.AgreeOutside (lo hi : Bounds) (h h1 : Heap) : Prop :=
  Region.AgreeOutside lo.strings hi.strings h.strings h1.strings ∧
  Region.AgreeOutside lo.extraItems hi.extraItems h.extraItems h1.extraItems ∧
  Region.AgreeOutside lo.catalogItems hi.catalogItems h.catalogItems h1.catalogItems ∧
  Region.AgreeOutside lo.resourceItems hi.resourceItems h.resourceItems h1.resourceItems

/-- Componentwise order on bounds. -/
def Bounds.le (b c : Bounds) : Prop :=
  b.strings ≤ c.strings ∧ b.extraItems ≤ c.extraItems ∧
  b.catalogItems ≤ c.catalogItems ∧ b.resourceItems ≤ c.resourceItems

/-- State of a clone loop after `k` iterations: the first `k` cells of the destination
array `arr` hold elements that satisfy `P` and read (through `f`) as the corresponding
source elements `es` read (through `g`). -/
def Filled {α β : Type} (k : Nat) (arr es : List α) (P : α → Prop) (f g : α → β) : Prop :=
  ∀ i, i < k → ∃ e1 e, arr[i]? = some e1 ∧ es[i]? = some e ∧ P e1 ∧ f e1 = g e

/-- Go `encoding/json` on a slice, given the encoding of its elements: a nil slice encodes
as `null`, every other slice as a JSON array. -/
def marshalSlice {α : Type} (encode : α → String) : Option (List α) → String
  | none => "null"
  | some items => "[" ++ ",".intercalate (items.map encode) ++ "]"

/-! ## `src/examples/custom/main.go`: callbacks and handlers -/

/-- Go `customer`, the user data type the example registers. -/
structure customer where
  UserID : String
  Token : String
  PreferredStreamType : String
  deriving DecidableEq, Repr

/-- The JSON field names in the struct tags of `customer`, in field order. -/
def customer.jsonFields : List String := ["userId", "token", "preferredStreamType"]

/-- Go `allowedUsers`. -/
def allowedUsers : List customer :=
  [{ UserID := "123", Token := "abc", PreferredStreamType := "" },
   { UserID := "456", Token := "def", PreferredStreamType := "" }]

/-- The dynamic value of the `userData interface{}` argument: the `nil` interface, a
non-nil `*customer` (given by the customer it points to), a nil `*customer` held in a
non-nil interface, or a value of another dynamic type, of which only the Go type name
(`%T`) is observed. -/
inductive UserData where
  | nil : UserData
  | customer (u : Stremio.customer) : UserData
  | nilCustomer : UserData
  | other (goType : String) : UserData
  deriving DecidableEq, Repr

/-- fiber's `StatusOK`. -/
def StatusOK : Nat := 200
/-- fiber's `StatusUnauthorized`. -/
def StatusUnauthorized : Nat := 401
/-- fiber's `StatusForbidden`. -/
def StatusForbidden : Nat := 403
/-- fiber's `StatusInternalServerError`. -/
def StatusInternalServerError : Nat := 500

/-- The loop `for _, allowedUser := range allowedUsers` of the manifest callback, with the
final `return fiber.StatusForbidden` when no entry matched. `u` is the `*customer` (`none`
is the nil pointer); the outer `none` is the nil-dereference panic of `u.UserID`. -/
def createManifestCallback.loop (u : Option customer) : List customer → Option Nat
  | [] => some StatusForbidden
  | allowedUser :: rest =>
    match u with
    | none => none
    | some c =>
      if c.UserID = allowedUser.UserID ∧ c.Token = allowedUser.Token then some StatusOK
      else createManifestCallback.loop u rest

/-- The closure returned by Go `createManifestCallback(logger)`: the returned status, or
`none` for a run-time panic; log output is not modelled. -/
def createManifestCallback : UserData → Option Nat
  | .nil => some StatusUnauthorized
  | .other _ => some StatusInternalServerError
  | .customer u => createManifestCallback.loop (some u) allowedUsers
  | .nilCustomer => createManifestCallback.loop none allowedUsers

structure Subtitles where
  Id : String
  URL : String
  Language : String
  deriving DecidableEq, Repr

structure ProxyHeaders where
  Request : Option (List (String × String))
  deriving DecidableEq, Repr

structure StreamItemBehaviorHints where
  CountryWhitelist : String
  NotWebReady : Bool
  BingeGroup : String
  ProxyHeaders : ProxyHeaders
  deriving DecidableEq, Repr

/-- Go `StreamItem`; `FileIndex` is a `uint8`. -/
structure StreamItem where
  URL : String := ""
  YoutubeID : String := ""
  InfoHash : String := ""
  ExternalURL : String := ""
  Name : String := ""
  Title : String := ""
  Description : String := ""
  FileIndex : Fin 256 := 0
  Subtitles : Option (List Subtitles) := none
  BehaviorHints : Option StreamItemBehaviorHints := none
  deriving DecidableEq, Repr

/-- Go `streams`. -/
def streams : List StreamItem :=
  [{ InfoHash := "dd8255ecdc7ca55fb0bbf81323d87062db1f6d1c",
     Title := "1080p (torrent)",
     FileIndex := 1 },
   { URL :=
       "http://distribution.bbb3d.renderfarming.net/video/mp4/bbb_sunflower_1080p_30fps_normal.mp4",
     Title := "1080p (HTTP stream)" }]

/-- The non-nil errors a stream handler returns: `stremio.NotFound`, or the `fmt.Errorf`
conversion error, which carries the Go type name of the user data. -/
inductive StreamError where
  | NotFound : StreamError
  | conversion (goType : String) : StreamError
  deriving DecidableEq, Repr

/-- The closure returned by Go `createMovieHandler(logger)`: the returned slice (`none` is
the `nil` slice) and the returned error (`none` is `nil`), or the outer `none` for a
run-time panic (`u.UserID` on a nil `*customer`); log output is not modelled. -/
def createMovieHandler (id : String) (userData : UserData) :
    Option (Option (List StreamItem) × Option StreamError) :=
  if id = "tt1254207" then
    match userData with
    | .nil => some (some streams, none)
    | .other goType => some (none, some (.conversion goType))
    | .nilCustomer => none
    | .customer u =>
      if u.PreferredStreamType = "torrent" then
        some (some [streams.get ⟨0, by decide⟩], none)
      else if u.PreferredStreamType = "http" then
        some (some [streams.get ⟨1, by decide⟩], none)
      else some (some streams, none)
  else some (none, some .NotFound)

/-- Go `int` on a 64-bit target: the two's complement value an arithmetic result wraps to. -/
def wrapInt (x : Int) : Int := (x + 2 ^ 63) % 2 ^ 64 - 2 ^ 63

/-- A Go string that fiber v1 makes from a byte buffer without copying, as `c.OriginalURL()`
does from the request's URI buffer: the first `len` bytes of the backing array `arr`. -/
structure BufferString where
  arr : Nat
  len : Nat
  deriving DecidableEq, Repr

/-- One entry of the `stats` map: the key, which is the stored string header; the content
the key had when it was inserted, which decides where the map filed the entry (distinct
contents are taken to hash apart, and the map is taken not to be rehashed); and the
count. -/
structure StatsEntry where
  filed : List Char
  key : BufferString
  count : Int
  deriving DecidableEq, Repr

/-- What outlives a request on one keep-alive connection: the backing arrays the URI buffer
has had, each with the bytes written to it and its capacity (the last one is in use), and
the `stats` map of `createCustomMiddleware`. -/
structure Server where
  arrays : List (List Char × Nat)
  stats : List StatsEntry
  deriving DecidableEq, Repr

/-- No request yet and `stats := map[string]int{}`. -/
def Server.empty : Server := ⟨[], []⟩

/-- The present content of a buffer string. -/
def Server.read (srv : Server) (s : BufferString) : List Char :=
  ((srv.arrays.getD s.arr ([], 0)).1).take s.len

/-- The server reads the next request line: the URI is written over the start of the URI
buffer (`append(buf[:0], uri...)`), into a new backing array only when it does not fit;
`grow old needed` is the capacity the allocator then gives. Returns the string that
`c.OriginalURL()` yields for this request. -/
def Server.receive (grow : Nat → Nat → Nat) (srv : Server) (uri : List Char) :
    Server × BufferString :=
  match srv.arrays.getLast? with
  | some (bytes, cap) =>
    if uri.length ≤ cap then
      ({ srv with arrays := srv.arrays.set (srv.arrays.length - 1)
                    (uri ++ bytes.drop uri.length, cap) },
        ⟨srv.arrays.length - 1, uri.length⟩)
    else
      ({ srv with arrays := srv.arrays ++ [(uri, max uri.length (grow cap uri.length))] },
        ⟨srv.arrays.length, uri.length⟩)
  | none =>
    ({ srv with arrays := srv.arrays ++ [(uri, max uri.length (grow 0 uri.length))] },
      ⟨srv.arrays.length, uri.length⟩)

/-- Go `count, ok := stats[route]` for a key of the given content: the entry filed under
that content whose key still reads as that content; `none` is `ok == false`. -/
def Server.find (srv : Server) (content : List Char) : List StatsEntry → Option Int
  | [] => none
  | e :: rest =>
    if e.filed = content ∧ srv.read e.key = content then some e.count
    else Server.find srv content rest

/-- Go `stats[route] = v`: the entry that `Server.find` finds gets the new value (and the
new key header), otherwise a new entry is filed under the present content of `route`. -/
def Server.store (srv : Server) (route : BufferString) (v : Int) :
    List StatsEntry → List StatsEntry
  | [] => [⟨srv.read route, route, v⟩]
  | e :: rest =>
    if e.filed = srv.read route ∧ srv.read e.key = srv.read route then
      { e with key := route, count := v } :: rest
    else e :: Server.store srv route v rest

/-- One invocation of the closure returned by Go `createCustomMiddleware(logger)`, with
`route` the value of `c.OriginalURL()`, taken sequentially: the new content of `stats` and
the number of times `c.Next()` was called. -/
def createCustomMiddleware (srv : Server) (route : BufferString) : Server × Nat :=
  let count := match srv.find (srv.read route) srv.stats with
    | some count => count
    | none => 0
  ({ srv with stats := srv.store route (wrapInt (count + 1)) srv.stats }, 1)

/-- The middleware handling a sequence of requests of one keep-alive connection, given by
their original URLs, one after the other: the final state and the total number of calls of
`c.Next()`. -/
def handleAll (grow : Nat → Nat → Nat) : Server × Nat → List String → Server × Nat
  | s, [] => s
  | (srv, calls), uri :: rest =>
    let (srv1, route) := srv.receive grow uri.toList
    let (srv2, n) := createCustomMiddleware srv1 route
    handleAll grow (srv2, calls + n) rest

/-- The `stats` map as the reporting goroutine formats it: every key as it reads now, with
its count. -/
def Server.table (srv : Server) : List (String × Int) :=
  srv.stats.map fun e => (String.mk (srv.read e.key), e.count)

/-! ## User data transport -/

/-- The user data segment that the comment on `customer` documents for testing. -/
def testUserData : String :=
  "eyJ1c2VySWQiOiIxMjMiLCJ0b2tlbiI6ImFiYyIsInByZWZlcnJlZFN0cmVhbVR5cGUiOiJodHRwIn0="

/-- The JSON text that the comment on `customer` gives for `testUserData`. -/
def testUserDataJSON : String :=
  "\x7b\"userId\":\"123\",\"token\":\"abc\",\"preferredStreamType\":\"http\"\x7d"

/-- Modelled from the spec: the alphabet of the "base64-url-encoded" form (RFC 4648,
section 5); the codec is not among the sources. -/
def base64URLAlphabet : List Char :=
  "ABCDEFGHIJKLMNOPQRSTUVWXYZabcdefghijklmnopqrstuvwxyz0123456789-_".toList

/-- Modelled from the spec: the character of a 6-bit value in the "base64-url-encoded"
form; the codec is not among the sources. -/
def base64URLDigit (n : Nat) : Char := base64URLAlphabet.getD n 'A'

/-- Modelled from the spec: the 6-bit value of a character of the "base64-url-encoded"
form, `none` outside the alphabet; the codec is not among the sources. -/
def base64URLValue (c : Char) : Option Nat :=
  let i := base64URLAlphabet.indexOf c
  if i < 64 then some i else none

/-- Modelled from the spec: the configuration codec's "base64-url-encoded" form of a byte
sequence, with padding; the codec itself is not among the sources. -/
def base64URLEncode : List Nat → List Char
  | [] => []
  | [a] => [base64URLDigit (a / 4), base64URLDigit (a % 4 * 16), '=', '=']
  | [a, b] =>
    [base64URLDigit (a / 4), base64URLDigit (a % 4 * 16 + b / 16),
     base64URLDigit (b % 16 * 4), '=']
  | a :: b :: c :: rest =>
    base64URLDigit (a / 4) :: base64URLDigit (a % 4 * 16 + b / 16) ::
      base64URLDigit (b % 16 * 4 + c / 64) :: base64URLDigit (c % 64) ::
      base64URLEncode rest

/-- Modelled from the spec: the configuration codec's decoding of a "base64-url-encoded"
segment with padding; `none` is a malformed segment. The codec itself is not among the
sources. -/
def base64URLDecode : List Char → Option (List Nat)
  | [] => some []
  | [a, b, '=', '='] =>
    (base64URLValue a).bind fun x => (base64URLValue b).bind fun y =>
    some [x * 4 + y / 16]
  | [a, b, c, '='] =>
    (base64URLValue a).bind fun x => (base64URLValue b).bind fun y =>
    (base64URLValue c).bind fun z =>
    some [x * 4 + y / 16, y % 16 * 16 + z / 4]
  | a :: b :: c :: d :: rest =>
    (base64URLValue a).bind fun x => (base64URLValue b).bind fun y =>
    (base64URLValue c).bind fun z => (base64URLValue d).bind fun w =>
    (base64URLDecode rest).map fun bytes =>
      (x * 4 + y / 16) :: (y % 16 * 16 + z / 4) :: (z % 4 * 64 + w) :: bytes
  | _ => none

/-- The bytes of a text all of whose characters are ASCII. -/
def asciiBytes (s : String) : List Nat := s.toList.map Char.toNat

/-- Modelled from the spec: reader state for the JSON object of a decoded segment, for
objects whose values are all strings without escapes; the codec is not among the sources. -/
inductive ObjectReader where
  | start
  | wantKey (done : List (String × String))
  | inKey (done : List (String × String)) (key : List Char)
  | wantColon (done : List (String × String)) (key : String)
  | wantValue (done : List (String × String)) (key : String)
  | inValue (done : List (String × String)) (key : String) (value : List Char)
  | afterValue (done : List (String × String))
  | finished (done : List (String × String))
  | failed

/-- Modelled from the spec: the JSON object reader consuming one character; the codec is
not among the sources. -/
def ObjectReader.step : ObjectReader → Char → ObjectReader
  | .start, '\x7b' => .wantKey []
  | .wantKey done, '"' => .inKey done []
  | .inKey done key, '"' => .wantColon done (String.mk key.reverse)
  | .inKey _ _, '\\' => .failed
  | .inKey done key, c => .inKey done (c :: key)
  | .wantColon done key, ':' => .wantValue done key
  | .wantValue done key, '"' => .inValue done key []
  | .inValue done key value, '"' => .afterValue (done ++ [(key, String.mk value.reverse)])
  | .inValue _ _ _, '\\' => .failed
  | .inValue done key value, c => .inValue done key (c :: value)
  | .afterValue done, ',' => .wantKey done
  | .afterValue done, '\x7d' => .finished done
  | _, _ => .failed

/-- Modelled from the spec: the JSON object a decoded segment must parse as, read as its
key/value pairs in order, for objects whose values are strings without escapes; `none` is
malformed text. The codec itself is not among the sources. -/
def readObject (text : List Char) : Option (List (String × String)) :=
  match text.foldl ObjectReader.step .start with
  | .finished done => some done
  | _ => none

/-- Modelled from the spec: decoding against the registered schema `customer`, each member
stored in the field whose JSON name it carries; an absent member leaves the zero value. -/
def customer.ofObject (members : List (String × String)) : customer :=
  { UserID := (members.lookup "userId").getD "",
    Token := (members.lookup "token").getD "",
    PreferredStreamType := (members.lookup "preferredStreamType").getD "" }

/-! ## `src/pkg/cinemeta/types.go` -/

/-- Go `type mediaType int`: the value of an `int` on a 64-bit target, so an integer in
`[-2^63, 2^63)`. -/
abbrev cinemeta.mediaType := Int

/-- Go `movie mediaType = iota + 1`, the first constant of the block. -/
def cinemeta.movie : cinemeta.mediaType := 0 + 1

/-- Go `tvShow`, the second constant of the block (`iota + 1` with `iota = 1`). -/
def cinemeta.tvShow : cinemeta.mediaType := 1 + 1

/-- The index expression `mt-1` of `mediaType.String`, with `int` arithmetic. -/
def cinemeta.mediaType.index (mt : cinemeta.mediaType) : Int := wrapInt (mt - 1)

/-- Go `func (mt mediaType) String() string`: the array literal indexed at `mt-1`; `none`
is the index-out-of-range panic. -/
def cinemeta.mediaType.String (mt : cinemeta.mediaType) : Option String :=
  let i := cinemeta.mediaType.index mt
  if 0 ≤ i then ["movie", "TV show"][i.toNat]? else none

/-! ## Backing arrays: reading, writing, framing -/

theorem forRange_invariant {σ : Type} (body : Nat → σ → Option σ) (Inv : Nat → σ → Prop)
    (n : Nat) (s : σ) (h0 : Inv 0 s)
    (hstep : ∀ i t, i < n → Inv i t → ∃ t1, body i t = some t1 ∧ Inv (i + 1) t1) :
    ∃ t, forRange body n s = some t ∧ Inv n t := by
  induction n with
  | zero => exact ⟨s, rfl, h0⟩
  | succ k ih =>
    obtain ⟨t, ht, hinv⟩ := ih (fun i t hi => hstep i t (Nat.lt_succ_of_lt hi))
    obtain ⟨t1, ht1, hinv1⟩ := hstep k t (Nat.lt_succ_self k) hinv
    exact ⟨t1, by simp [forRange, ht, ht1], hinv1⟩

theorem Slice.OwnedIn.widen {α : Type} {r : Region α} {lo hi lo1 hi1 : Nat} {s : Slice}
    (hs : s.OwnedIn r lo hi) (hlo : lo1 ≤ lo) (hhi : hi ≤ hi1) : s.OwnedIn r lo1 hi1 := by
  cases s with
  | nil => trivial
  | mk a off len cap =>
    obtain ⟨h1, h2, h3, h4⟩ := hs
    exact ⟨le_trans hlo h1, lt_of_lt_of_le h2 hhi, h3, h4⟩

theorem Region.frame {α : Type} {r r1 : Region α} {lo hi : Nat} {s : Slice}
    (hag : Region.AgreeOn lo hi r r1) (hs : s.OwnedIn r lo hi) :
    s.OwnedIn r1 lo hi ∧ r1.elems s = r.elems s := by
  cases s with
  | nil => exact ⟨trivial, rfl⟩
  | mk a off len cap =>
    obtain ⟨h1, h2, h3, h4⟩ := hs
    have heq : r1[a]? = r[a]? := hag a h1 h2 h3
    have hlen : a < r1.length := by
      by_contra hc
      rw [List.getElem?_eq_none (not_lt.1 hc), List.getElem?_eq_getElem h3] at heq
      exact absurd heq (by simp)
    have hget : r1.getD a [] = r.getD a [] := by
      simp only [List.getD_eq_getElem?_getD, heq]
    exact ⟨⟨h1, h2, hlen, by rw [hget]; exact h4⟩, by simp only [Region.elems, hget]⟩

theorem Region.elems_length {α : Type} {r : Region α} {lo hi : Nat} {s : Slice}
    (hs : s.OwnedIn r lo hi) : (r.elems s).length = s.length := by
  cases s with
  | nil => rfl
  | mk a off len cap =>
    obtain ⟨_, _, _, h4⟩ := hs
    simp only [Region.elems, Slice.length, List.length_take, List.length_drop]
    omega

theorem Region.index_eq {α : Type} {r : Region α} {lo hi : Nat} {s : Slice} {i : Nat}
    (hs : s.OwnedIn r lo hi) (hi : i < s.length) : r.index s i = (r.elems s)[i]? := by
  cases s with
  | nil => simp [Slice.length] at hi
  | mk a off len cap =>
    obtain ⟨_, _, h3, _⟩ := hs
    simp only [Slice.length] at hi
    simp only [Region.index, Region.elems, hi, if_true, List.getElem?_eq_getElem h3,
      List.getD_eq_getElem?_getD, Option.getD_some, List.getElem?_take_of_lt hi,
      List.getElem?_drop]

theorem Region.index_mem {α : Type} {r : Region α} {lo hi : Nat} {s : Slice} {i : Nat}
    {x : α} (hs : s.OwnedIn r lo hi) (hx : r.index s i = some x) : x ∈ r.elems s := by
  have hi : i < s.length := by
    cases s with
    | nil => simp [Region.index] at hx
    | mk a off len cap =>
      by_contra hc
      simp [Region.index, Slice.length] at hx hc
      omega
  rw [Region.index_eq hs hi] at hx
  exact List.getElem?_mem hx

theorem Region.assign_agreeOutside {α : Type} {r r1 : Region α} {lo hi : Nat} {s : Slice}
    {i : Nat} {v : α} (hs : s.OwnedIn r lo hi) (hw : r.assign s i v = some r1) :
    Region.AgreeOutside lo hi r r1 := by
  cases s with
  | nil => simp [Region.assign] at hw
  | mk a off len cap =>
    obtain ⟨h1, h2, h3, _⟩ := hs
    simp only [Region.assign, List.getElem?_eq_getElem h3] at hw
    split at hw
    · split at hw
      · simp only [Option.some.injEq] at hw
        subst hw
        intro b hb
        have hne : a ≠ b := by
          rintro rfl
          exact hb ⟨h1, h2⟩
        exact List.getElem?_set_ne hne
      · simp at hw
    · simp at hw

theorem Region.assign_make {α : Type} (r0 : Region α) (arr : List α) (len i : Nat) (v : α)
    (hi : i < len) (hlen : arr.length = len) :
    (r0 ++ [arr]).assign (.mk r0.length 0 len len) i v = some (r0 ++ [arr.set i v]) := by
  have hget : (r0 ++ [arr])[r0.length]? = some arr := by
    rw [List.getElem?_append_right (le_refl _)]
    simp
  simp only [Region.assign, hi, if_true, hget, Nat.zero_add, hlen]
  congr 1
  rw [List.set_append_right _ _ (le_refl _)]
  simp

theorem Region.agreeOn_append {α : Type} (lo hi : Nat) (r t : Region α) :
    Region.AgreeOn lo hi r (r ++ t) :=
  fun _ _ _ ha => List.getElem?_append_left ha

theorem Region.agreeOn_refl {α : Type} (lo hi : Nat) (r : Region α) :
    Region.AgreeOn lo hi r r :=
  fun _ _ _ _ => rfl

theorem Region.AgreeOutside.agreeOn {α : Type} {r r1 : Region α} {lo hi lo1 hi1 : Nat}
    (hag : Region.AgreeOutside lo hi r r1) (hdis : hi1 ≤ lo ∨ hi ≤ lo1) :
    Region.AgreeOn lo1 hi1 r r1 := by
  intro a h1 h2 _
  apply hag
  rintro ⟨h3, h4⟩
  omega

theorem Region.agreeOutside_refl {α : Type} (lo hi : Nat) (r : Region α) :
    Region.AgreeOutside lo hi r r :=
  fun _ _ => rfl

/-! ## The string slice copy -/

theorem Region.elems_make {α : Type} (r0 : Region α) (arr : List α) (len : Nat)
    (hlen : arr.length = len) :
    (r0 ++ [arr]).elems (.mk r0.length 0 len len) = arr ∧
    (Slice.mk r0.length 0 len len).OwnedIn (r0 ++ [arr]) r0.length (r0 ++ [arr]).length := by
  have hget : (r0 ++ [arr]).getD r0.length [] = arr := by
    rw [List.getD_eq_getElem?_getD, List.getElem?_append_right (le_refl _)]
    simp
  refine ⟨?_, le_refl _, ?_, ?_, ?_⟩
  · simp only [Region.elems, hget, List.drop_zero, ← hlen, List.take_length]
  · simp
  · simp
  · rw [hget]; omega

theorem cloneStrings_spec (h : Heap) (src : Slice) (lo hi : Nat)
    (hs : src.OwnedIn h.strings lo hi) :
    ∃ dst t, cloneStrings src h = some (dst, { h with strings := h.strings ++ t }) ∧
      dst.OwnedIn (h.strings ++ t) h.strings.length (h.strings ++ t).length ∧
      (h.strings ++ t).value id dst = h.strings.value id src := by
  cases src with
  | nil =>
    refine ⟨.nil, [], ?_, trivial, rfl⟩
    simp [cloneStrings]
  | mk a off len cap =>
    have hlen : (h.strings.elems (.mk a off len cap)).length = len :=
      Region.elems_length hs
    obtain ⟨r, hrun, arr, hr, harr, hfill⟩ := forRange_invariant
      (fun i r => (r.index (.mk a off len cap) i).bind
        (fun t => r.assign (.mk h.strings.length 0 len len) i t))
      (fun k r => ∃ arr, r = h.strings ++ [arr] ∧ arr.length = len ∧
        ∀ i, i < k → arr[i]? = (h.strings.elems (.mk a off len cap))[i]?)
      len (h.strings ++ [List.replicate len ""])
      ⟨_, rfl, List.length_replicate _ _, fun i hi => absurd hi (Nat.not_lt_zero i)⟩
      (by
        rintro k r hk ⟨arr, rfl, harr, hfill⟩
        obtain ⟨hown, helems⟩ := Region.frame (Region.agreeOn_append lo hi h.strings [arr]) hs
        have hidx := Region.index_eq (i := k) hown hk
        rw [helems] at hidx
        obtain ⟨x, hx⟩ : ∃ x, (h.strings.elems (.mk a off len cap))[k]? = some x :=
          ⟨_, List.getElem?_eq_getElem (by omega)⟩
        refine ⟨h.strings ++ [arr.set k x], ?_, arr.set k x, rfl, ?_, ?_⟩
        · simp only [hidx, hx, Option.some_bind]
          exact Region.assign_make _ _ _ _ _ hk harr
        · simp [harr]
        · intro i hi
          by_cases hik : i = k
          · subst hik
            rw [List.getElem?_set_self (by omega), hx]
          · rw [List.getElem?_set_ne (fun hc => hik hc.symm)]
            exact hfill i (by omega))
    have harr_eq : arr = h.strings.elems (.mk a off len cap) := by
      apply List.ext_getElem?
      intro n
      by_cases hn : n < len
      · exact hfill n hn
      · rw [List.getElem?_eq_none (by omega), List.getElem?_eq_none (by omega)]
    subst hr
    obtain ⟨he, hown⟩ := Region.elems_make h.strings arr len harr
    refine ⟨.mk h.strings.length 0 len len, [arr], ?_, hown, ?_⟩
    · simp only [cloneStrings, Region.make, hrun, Option.map_some']
    · simp only [Region.value, List.map_id]
      rw [he, harr_eq]

/-! ## Clone loops -/

@[simp] theorem Heap.sizes_strings (h : Heap) : h.sizes.strings = h.strings.length := rfl

@[simp] theorem Heap.sizes_extraItems (h : Heap) :
    h.sizes.extraItems = h.extraItems.length := rfl

@[simp] theorem Heap.sizes_catalogItems (h : Heap) :
    h.sizes.catalogItems = h.catalogItems.length := rfl

@[simp] theorem Heap.sizes_resourceItems (h : Heap) :
    h.sizes.resourceItems = h.resourceItems.length := rfl

theorem Filled.zero {α β : Type} (arr es : List α) (P : α → Prop) (f g : α → β) :
    Filled 0 arr es P f g :=
  fun i hi => absurd hi (Nat.not_lt_zero i)

theorem Filled.step {α β : Type} {k : Nat} {arr es : List α} {P Q : α → Prop}
    {f g f1 : α → β} (hfill : Filled k arr es P f g)
    (hkeep : ∀ x, P x → Q x ∧ f1 x = f x) (hk : k < arr.length)
    {e1 e : α} (he : es[k]? = some e) (hQ : Q e1) (hval : f1 e1 = g e) :
    Filled (k + 1) (arr.set k e1) es Q f1 g := by
  intro i hi
  by_cases hik : i = k
  · subst hik
    exact ⟨e1, e, List.getElem?_set_self hk, he, hQ, hval⟩
  · obtain ⟨x1, x, h1, h2, h3, h4⟩ := hfill i (by omega)
    obtain ⟨h5, h6⟩ := hkeep x1 h3
    exact ⟨x1, x, by rw [List.getElem?_set_ne (fun hc => hik hc.symm)]; exact h1, h2, h5,
      by rw [h6, h4]⟩

theorem Filled.final {α β : Type} {len : Nat} {arr es : List α} {P : α → Prop}
    {f g : α → β} (hfill : Filled len arr es P f g) (harr : arr.length = len)
    (hes : es.length = len) : (∀ x ∈ arr, P x) ∧ arr.map f = es.map g := by
  constructor
  · intro x hx
    obtain ⟨n, hn⟩ := List.mem_iff_getElem?.1 hx
    have hlt : n < len := by
      by_contra hc
      rw [List.getElem?_eq_none (by omega)] at hn
      exact absurd hn (by simp)
    obtain ⟨x1, _, h1, _, h3, _⟩ := hfill n hlt
    rw [h1] at hn
    injection hn with hn
    exact hn ▸ h3
  · apply List.ext_getElem?
    intro n
    by_cases hn : n < len
    · obtain ⟨x1, x, h1, h2, _, h4⟩ := hfill n hn
      simp only [List.getElem?_map, h1, h2, Option.map_some', h4]
    · rw [List.getElem?_eq_none (by simp; omega), List.getElem?_eq_none (by simp; omega)]

theorem Region.value_frame {α β : Type} {r r1 : Region α} {lo hi : Nat} {s : Slice}
    {f f1 : α → β} (hag : Region.AgreeOn lo hi r r1) (hs : s.OwnedIn r lo hi)
    (hf : ∀ x ∈ r.elems s, f1 x = f x) : r1.value f1 s = r.value f s := by
  cases s with
  | nil => rfl
  | mk a off len cap =>
    simp only [Region.value, (Region.frame hag hs).2, Option.some.injEq]
    exact List.map_congr_left hf

theorem Heap.frame_extraItem (h h1 : Heap) (lo hi : Bounds) {e : ExtraItem}
    (hag : Region.AgreeOn lo.strings hi.strings h.strings h1.strings)
    (he : h.OwnsExtraItem lo hi e) :
    h1.OwnsExtraItem lo hi e ∧ h1.extraItemValue e = h.extraItemValue e := by
  refine ⟨(Region.frame hag he).1, ?_⟩
  simp only [Heap.extraItemValue, Region.value_frame hag he (fun _ _ => rfl)]

theorem Heap.frame_resourceItem (h h1 : Heap) (lo hi : Bounds) {ri : ResourceItem}
    (hag : Region.AgreeOn lo.strings hi.strings h.strings h1.strings)
    (hri : h.OwnsResourceItem lo hi ri) :
    h1.OwnsResourceItem lo hi ri ∧ h1.resourceItemValue ri = h.resourceItemValue ri := by
  refine ⟨⟨(Region.frame hag hri.1).1, (Region.frame hag hri.2).1⟩, ?_⟩
  simp only [Heap.resourceItemValue, Region.value_frame hag hri.1 (fun _ _ => rfl),
    Region.value_frame hag hri.2 (fun _ _ => rfl)]

theorem Heap.frame_catalogItem (h h1 : Heap) (lo hi : Bounds) {ci : CatalogItem}
    (hags : Region.AgreeOn lo.strings hi.strings h.strings h1.strings)
    (hage : Region.AgreeOn lo.extraItems hi.extraItems h.extraItems h1.extraItems)
    (hci : h.OwnsCatalogItem lo hi ci) :
    h1.OwnsCatalogItem lo hi ci ∧ h1.catalogItemValue ci = h.catalogItemValue ci := by
  obtain ⟨hown, helems⟩ := Region.frame hage hci.1
  refine ⟨⟨hown, ?_⟩, ?_⟩
  · intro e he
    rw [helems] at he
    exact (Heap.frame_extraItem h h1 lo hi hags (hci.2 e he)).1
  · simp only [Heap.catalogItemValue, Region.value_frame hage hci.1
      (fun e he => (Heap.frame_extraItem h h1 lo hi hags (hci.2 e he)).2)]

theorem Heap.frame_manifest (h h1 : Heap) (lo hi : Bounds) {m : Manifest}
    (hag : Heap.AgreeOn lo hi h h1) (hm : h.OwnsManifest lo hi m) :
    h1.OwnsManifest lo hi m ∧ h1.manifestValue m = h.manifestValue m := by
  obtain ⟨hags, hage, hagc, hagr⟩ := hag
  obtain ⟨h1r, h2r, h3, h4c, h5c, h6⟩ := hm
  refine ⟨⟨(Region.frame hagr h1r).1, ?_, (Region.frame hags h3).1, (Region.frame hagc h4c).1,
    ?_, (Region.frame hags h6).1⟩, ?_⟩
  · intro ri hri
    rw [(Region.frame hagr h1r).2] at hri
    exact (Heap.frame_resourceItem h h1 lo hi hags (h2r ri hri)).1
  · intro ci hci
    rw [(Region.frame hagc h4c).2] at hci
    exact (Heap.frame_catalogItem h h1 lo hi hags hage (h5c ci hci)).1
  · simp only [Heap.manifestValue,
      Region.value_frame hagr h1r (fun ri hri => (Heap.frame_resourceItem h h1 lo hi hags (h2r ri hri)).2),
      Region.value_frame hags h3 (fun _ _ => rfl),
      Region.value_frame hagc h4c
        (fun ci hci => (Heap.frame_catalogItem h h1 lo hi hags hage (h5c ci hci)).2),
      Region.value_frame hags h6 (fun _ _ => rfl)]

theorem Heap.OwnsCatalogItem.widenCatalogItem {h : Heap} {lo hi : Bounds} {ci : CatalogItem}
    (hci : h.OwnsCatalogItem lo hi ci) (lo1 hi1 : Bounds) (hlo : lo1.le lo)
    (hhi : hi.le hi1) :
    h.OwnsCatalogItem lo1 hi1 ci :=
  ⟨Slice.OwnedIn.widen hci.1 hlo.2.1 hhi.2.1,
    fun e he => Slice.OwnedIn.widen (hci.2 e he) hlo.1 hhi.1⟩

theorem Heap.extraItemValue_congr {h h1 : Heap} (hs : h1.strings = h.strings) :
    h1.extraItemValue = h.extraItemValue := by
  funext e
  simp only [Heap.extraItemValue, hs]

theorem Heap.catalogItemValue_congr {h h1 : Heap} (hs : h1.strings = h.strings)
    (he : h1.extraItems = h.extraItems) : h1.catalogItemValue = h.catalogItemValue := by
  funext c
  simp only [Heap.catalogItemValue, he, Heap.extraItemValue_congr hs]

theorem ExtraItem.clone_extraItem_spec (h : Heap) (e : ExtraItem) (lo hi : Bounds)
    (he : h.OwnsExtraItem lo hi e) :
    ∃ e1 h1 t, e.clone h = some (e1, h1) ∧ h1 = { h with strings := h.strings ++ t } ∧
      h1.OwnsExtraItem h.sizes h1.sizes e1 ∧ h1.extraItemValue e1 = h.extraItemValue e := by
  obtain ⟨dst, t, hrun, hown, hval⟩ := cloneStrings_spec h e.Options _ _ he
  refine ⟨{ Name := e.Name, IsRequired := e.IsRequired, Options := dst,
            OptionsLimit := e.OptionsLimit }, { h with strings := h.strings ++ t }, t,
    by simp only [ExtraItem.clone, hrun, Option.some_bind], rfl, hown, ?_⟩
  simp only [Heap.extraItemValue, hval]

theorem ResourceItem.clone_resourceItem_spec (h : Heap) (ri : ResourceItem) (lo hi : Bounds)
    (hri : h.OwnsResourceItem lo hi ri) :
    ∃ r1 h1 t, ri.clone h = some (r1, h1) ∧ h1 = { h with strings := h.strings ++ t } ∧
      h1.OwnsResourceItem h.sizes h1.sizes r1 ∧
      h1.resourceItemValue r1 = h.resourceItemValue ri := by
  obtain ⟨types, t, hrun, hown, hval⟩ := cloneStrings_spec h ri.Types _ _ hri.1
  have hag := Region.agreeOn_append lo.strings hi.strings h.strings t
  obtain ⟨ids, u, hrun2, hown2, hval2⟩ :=
    cloneStrings_spec { h with strings := h.strings ++ t } ri.IDprefixes _ _
      (Region.frame hag hri.2).1
  have hag2 := Region.agreeOn_append h.strings.length (h.strings ++ t).length
    (h.strings ++ t) u
  refine ⟨{ Name := ri.Name, Types := types, IDprefixes := ids },
    { h with strings := h.strings ++ t ++ u }, t ++ u,
    by simp only [ResourceItem.clone, hrun, hrun2, Option.some_bind], by simp, ?_, ?_⟩
  · refine ⟨((Region.frame hag2 hown).1).widen (le_refl _) (by simp), ?_⟩
    exact hown2.widen (by simp) (le_refl _)
  · simp only [Heap.resourceItemValue]
    simp only at hval2
    rw [hval2, Region.value_frame hag2 hown (fun _ _ => rfl), hval,
      Region.value_frame hag hri.2 (fun _ _ => rfl)]

theorem CatalogItem.clone_catalogItem_spec (h : Heap) (ci : CatalogItem) (lo hi : Bounds)
    (hci : h.OwnsCatalogItem lo hi ci) :
    ∃ c1 h1 t u, ci.clone h = some (c1, h1) ∧
      h1 = { h with strings := h.strings ++ t, extraItems := h.extraItems ++ u } ∧
      h1.OwnsCatalogItem h.sizes h1.sizes c1 ∧
      h1.catalogItemValue c1 = h.catalogItemValue ci := by
  obtain ⟨typ, id, name, extra⟩ := ci
  cases extra with
  | nil =>
    refine ⟨⟨typ, id, name, .nil⟩, h, [], [], rfl, by simp, ⟨trivial, ?_⟩, rfl⟩
    intro e he
    simp [Region.elems] at he
  | mk a off len cap =>
    obtain ⟨hsrc, hel⟩ := hci
    simp only at hsrc hel
    have hlen : (h.extraItems.elems (.mk a off len cap)).length = len :=
      Region.elems_length hsrc
    obtain ⟨hf, hrun, t, arr, hhf, harr, hfill⟩ := forRange_invariant
      (CatalogItem.cloneStep (.mk a off len cap) (.mk h.extraItems.length 0 len len))
      (fun k hk => ∃ t arr,
        hk = { h with strings := h.strings ++ t, extraItems := h.extraItems ++ [arr] } ∧
        arr.length = len ∧
        Filled k arr (h.extraItems.elems (.mk a off len cap))
          (fun e1 => hk.OwnsExtraItem h.sizes hk.sizes e1)
          hk.extraItemValue h.extraItemValue)
      len { h with extraItems := h.extraItems ++ [List.replicate len ExtraItem.zero] }
      ⟨[], List.replicate len ExtraItem.zero, by simp, List.length_replicate _ _,
        Filled.zero _ _ _ _ _⟩
      (by
        rintro k hk hklt ⟨t, arr, rfl, harr, hfill⟩
        obtain ⟨hown, helems⟩ := Region.frame
          (Region.agreeOn_append lo.extraItems hi.extraItems h.extraItems [arr]) hsrc
        have hidx := Region.index_eq (i := k) hown hklt
        rw [helems] at hidx
        obtain ⟨e, he⟩ : ∃ e, (h.extraItems.elems (.mk a off len cap))[k]? = some e :=
          ⟨_, List.getElem?_eq_getElem (by omega)⟩
        have hag := Region.agreeOn_append lo.strings hi.strings h.strings t
        obtain ⟨hown_e, hval_e⟩ := Heap.frame_extraItem h
          { h with strings := h.strings ++ t, extraItems := h.extraItems ++ [arr] } lo hi
          hag (hel e (List.getElem?_mem he))
        obtain ⟨e1, h1, t1, hclone, rfl, hown1, hval1⟩ :=
          ExtraItem.clone_extraItem_spec _ e lo hi hown_e
        refine ⟨{ h with strings := h.strings ++ (t ++ t1),
                         extraItems := h.extraItems ++ [arr.set k e1] }, ?_,
          t ++ t1, arr.set k e1, rfl, by simp [harr], ?_⟩
        · simp only [CatalogItem.cloneStep, hidx, he, Option.some_bind, hclone]
          rw [Region.assign_make _ _ _ _ _ hklt harr]
          simp
        · refine Filled.step hfill ?_ (by omega) he ?_ ?_
          · intro x hx
            have hag2 := Region.agreeOn_append h.strings.length (h.strings ++ t).length
              (h.strings ++ t) t1
            obtain ⟨h5, h6⟩ := Heap.frame_extraItem
              { h with strings := h.strings ++ t, extraItems := h.extraItems ++ [arr] }
              { h with strings := h.strings ++ (t ++ t1),
                       extraItems := h.extraItems ++ [arr.set k e1] }
              h.sizes
              (Heap.sizes { h with strings := h.strings ++ t,
                                   extraItems := h.extraItems ++ [arr] })
              (by simpa using hag2) hx
            exact ⟨Slice.OwnedIn.widen h5 (le_refl _) (by simp), h6⟩
          · exact Slice.OwnedIn.widen (by simpa [Heap.OwnsExtraItem] using hown1) (by simp)
              (by simp)
          · rw [← hval_e, ← hval1]
            simp [Heap.extraItemValue])
    subst hhf
    obtain ⟨hallown, hmap⟩ := Filled.final hfill harr hlen
    obtain ⟨he, hown⟩ := Region.elems_make h.extraItems arr len harr
    refine ⟨⟨typ, id, name, .mk h.extraItems.length 0 len len⟩, _, t, [arr], ?_, rfl,
      ⟨by simpa using hown, ?_⟩, ?_⟩
    · simp only [CatalogItem.clone, Region.make, hrun, Option.map_some']
    · intro e1 he1
      simp only [he] at he1
      exact hallown e1 he1
    · simp only [Heap.catalogItemValue, Region.value, he, hmap]

theorem Manifest.cloneResourceItems_spec (h : Heap) (src : Slice) (lo hi : Bounds)
    (hsrc : src.OwnedIn h.resourceItems lo.resourceItems hi.resourceItems)
    (hel : ∀ ri ∈ h.resourceItems.elems src, h.OwnsResourceItem lo hi ri) :
    ∃ dst h1 t w, Manifest.cloneResourceItems src h = some (dst, h1) ∧
      h1 = { h with strings := h.strings ++ t, resourceItems := h.resourceItems ++ w } ∧
      dst.OwnedIn h1.resourceItems h.resourceItems.length h1.resourceItems.length ∧
      (∀ ri ∈ h1.resourceItems.elems dst, h1.OwnsResourceItem h.sizes h1.sizes ri) ∧
      h1.resourceItems.value h1.resourceItemValue dst =
        h.resourceItems.value h.resourceItemValue src := by
  cases src with
  | nil =>
    refine ⟨.nil, h, [], [], rfl, by simp, trivial, ?_, rfl⟩
    intro e he
    simp [Region.elems] at he
  | mk a off len cap =>
    have hlen : (h.resourceItems.elems (.mk a off len cap)).length = len :=
      Region.elems_length hsrc
    obtain ⟨hf, hrun, t, arr, hhf, harr, hfill⟩ := forRange_invariant
      (Manifest.cloneResourceStep (.mk a off len cap) (.mk h.resourceItems.length 0 len len))
      (fun k hk => ∃ t arr,
        hk = { h with strings := h.strings ++ t, resourceItems := h.resourceItems ++ [arr] } ∧
        arr.length = len ∧
        Filled k arr (h.resourceItems.elems (.mk a off len cap))
          (fun r1 => hk.OwnsResourceItem h.sizes hk.sizes r1)
          hk.resourceItemValue h.resourceItemValue)
      len { h with resourceItems := h.resourceItems ++ [List.replicate len ResourceItem.zero] }
      ⟨[], List.replicate len ResourceItem.zero, by simp, List.length_replicate _ _,
        Filled.zero _ _ _ _ _⟩
      (by
        rintro k hk hklt ⟨t, arr, rfl, harr, hfill⟩
        obtain ⟨hown, helems⟩ := Region.frame
          (Region.agreeOn_append lo.resourceItems hi.resourceItems h.resourceItems [arr]) hsrc
        have hidx := Region.index_eq (i := k) hown hklt
        rw [helems] at hidx
        obtain ⟨e, he⟩ : ∃ e, (h.resourceItems.elems (.mk a off len cap))[k]? = some e :=
          ⟨_, List.getElem?_eq_getElem (by omega)⟩
        have hag := Region.agreeOn_append lo.strings hi.strings h.strings t
        obtain ⟨hown_e, hval_e⟩ := Heap.frame_resourceItem h
          { h with strings := h.strings ++ t, resourceItems := h.resourceItems ++ [arr] }
          lo hi hag (hel e (List.getElem?_mem he))
        obtain ⟨e1, h1, t1, hclone, rfl, hown1, hval1⟩ :=
          ResourceItem.clone_resourceItem_spec _ e lo hi hown_e
        refine ⟨{ h with strings := h.strings ++ (t ++ t1),
                         resourceItems := h.resourceItems ++ [arr.set k e1] }, ?_,
          t ++ t1, arr.set k e1, rfl, by simp [harr], ?_⟩
        · simp only [Manifest.cloneResourceStep, hidx, he, Option.some_bind, hclone]
          rw [Region.assign_make _ _ _ _ _ hklt harr]
          simp
        · refine Filled.step hfill ?_ (by omega) he ?_ ?_
          · intro x hx
            have hag2 := Region.agreeOn_append h.strings.length (h.strings ++ t).length
              (h.strings ++ t) t1
            obtain ⟨h5, h6⟩ := Heap.frame_resourceItem
              { h with strings := h.strings ++ t, resourceItems := h.resourceItems ++ [arr] }
              { h with strings := h.strings ++ (t ++ t1),
                       resourceItems := h.resourceItems ++ [arr.set k e1] }
              h.sizes
              (Heap.sizes { h with strings := h.strings ++ t,
                                   resourceItems := h.resourceItems ++ [arr] })
              (by simpa using hag2) hx
            exact ⟨⟨Slice.OwnedIn.widen h5.1 (le_refl _) (by simp),
              Slice.OwnedIn.widen h5.2 (le_refl _) (by simp)⟩, h6⟩
          · have h7 := hown1.1
            have h8 := hown1.2
            exact ⟨Slice.OwnedIn.widen (by simpa using h7) (by simp) (by simp),
              Slice.OwnedIn.widen (by simpa using h8) (by simp) (by simp)⟩
          · rw [← hval_e, ← hval1]
            simp [Heap.resourceItemValue])
    subst hhf
    obtain ⟨hallown, hmap⟩ := Filled.final hfill harr hlen
    obtain ⟨he, hown⟩ := Region.elems_make h.resourceItems arr len harr
    refine ⟨.mk h.resourceItems.length 0 len len, _, t, [arr], ?_, rfl,
      by simpa using hown, ?_, ?_⟩
    · simp only [Manifest.cloneResourceItems, Region.make, hrun, Option.map_some']
    · intro e1 he1
      simp only [he] at he1
      exact hallown e1 he1
    · simp only [Region.value, he, hmap]

theorem Manifest.cloneCatalogs_spec (h : Heap) (src : Slice) (lo hi : Bounds)
    (hsrc : src.OwnedIn h.catalogItems lo.catalogItems hi.catalogItems)
    (hel : ∀ ci ∈ h.catalogItems.elems src, h.OwnsCatalogItem lo hi ci) :
    ∃ dst h1 t u v, Manifest.cloneCatalogs src h = some (dst, h1) ∧
      h1 = { h with strings := h.strings ++ t, extraItems := h.extraItems ++ u,
                    catalogItems := h.catalogItems ++ v } ∧
      dst.OwnedIn h1.catalogItems h.catalogItems.length h1.catalogItems.length ∧
      (∀ ci ∈ h1.catalogItems.elems dst, h1.OwnsCatalogItem h.sizes h1.sizes ci) ∧
      h1.catalogItems.value h1.catalogItemValue dst =
        h.catalogItems.value h.catalogItemValue src := by
  cases src with
  | nil =>
    refine ⟨.nil, h, [], [], [], rfl, by simp, trivial, ?_, rfl⟩
    intro e he
    simp [Region.elems] at he
  | mk a off len cap =>
    have hlen : (h.catalogItems.elems (.mk a off len cap)).length = len :=
      Region.elems_length hsrc
    obtain ⟨hf, hrun, t, u, arr, hhf, harr, hfill⟩ := forRange_invariant
      (Manifest.cloneCatalogStep (.mk a off len cap) (.mk h.catalogItems.length 0 len len))
      (fun k hk => ∃ t u arr,
        hk = { h with strings := h.strings ++ t, extraItems := h.extraItems ++ u,
                      catalogItems := h.catalogItems ++ [arr] } ∧
        arr.length = len ∧
        Filled k arr (h.catalogItems.elems (.mk a off len cap))
          (fun c1 => hk.OwnsCatalogItem h.sizes hk.sizes c1)
          hk.catalogItemValue h.catalogItemValue)
      len { h with catalogItems := h.catalogItems ++ [List.replicate len CatalogItem.zero] }
      ⟨[], [], List.replicate len CatalogItem.zero, by simp, List.length_replicate _ _,
        Filled.zero _ _ _ _ _⟩
      (by
        rintro k hk hklt ⟨t, u, arr, rfl, harr, hfill⟩
        obtain ⟨hown, helems⟩ := Region.frame
          (Region.agreeOn_append lo.catalogItems hi.catalogItems h.catalogItems [arr]) hsrc
        have hidx := Region.index_eq (i := k) hown hklt
        rw [helems] at hidx
        obtain ⟨e, he⟩ : ∃ e, (h.catalogItems.elems (.mk a off len cap))[k]? = some e :=
          ⟨_, List.getElem?_eq_getElem (by omega)⟩
        obtain ⟨hown_e, hval_e⟩ := Heap.frame_catalogItem h
          { h with strings := h.strings ++ t, extraItems := h.extraItems ++ u,
                   catalogItems := h.catalogItems ++ [arr] } lo hi
          (Region.agreeOn_append lo.strings hi.strings h.strings t)
          (Region.agreeOn_append lo.extraItems hi.extraItems h.extraItems u)
          (hel e (List.getElem?_mem he))
        obtain ⟨e1, h1, t1, u1, hclone, rfl, hown1, hval1⟩ :=
          CatalogItem.clone_catalogItem_spec _ e lo hi hown_e
        refine ⟨{ h with strings := h.strings ++ (t ++ t1),
                         extraItems := h.extraItems ++ (u ++ u1),
                         catalogItems := h.catalogItems ++ [arr.set k e1] }, ?_,
          t ++ t1, u ++ u1, arr.set k e1, rfl, by simp [harr], ?_⟩
        · simp only [Manifest.cloneCatalogStep, hidx, he, Option.some_bind, hclone]
          rw [Region.assign_make _ _ _ _ _ hklt harr]
          simp
        · refine Filled.step hfill ?_ (by omega) he ?_ ?_
          · intro x hx
            have hags := Region.agreeOn_append h.strings.length (h.strings ++ t).length
              (h.strings ++ t) t1
            have hage := Region.agreeOn_append h.extraItems.length
              (h.extraItems ++ u).length (h.extraItems ++ u) u1
            obtain ⟨h5, h6⟩ := Heap.frame_catalogItem
              { h with strings := h.strings ++ t, extraItems := h.extraItems ++ u,
                       catalogItems := h.catalogItems ++ [arr] }
              { h with strings := h.strings ++ (t ++ t1),
                       extraItems := h.extraItems ++ (u ++ u1),
                       catalogItems := h.catalogItems ++ [arr.set k e1] }
              h.sizes
              (Heap.sizes { h with strings := h.strings ++ t,
                                   extraItems := h.extraItems ++ u,
                                   catalogItems := h.catalogItems ++ [arr] })
              (by simpa using hags) (by simpa using hage) hx
            exact ⟨Heap.OwnsCatalogItem.widenCatalogItem h5 _ _ (by simp [Bounds.le])
              (by simp [Bounds.le]), h6⟩
          · have h9 := Heap.OwnsCatalogItem.widenCatalogItem hown1 h.sizes
              (Heap.sizes { h with strings := h.strings ++ (t ++ t1),
                                   extraItems := h.extraItems ++ (u ++ u1),
                                   catalogItems := h.catalogItems ++ [arr.set k e1] })
              (by simp [Bounds.le]) (by simp [Bounds.le])
            simpa [Heap.OwnsCatalogItem, Heap.OwnsExtraItem] using h9
          · rw [← hval_e, ← hval1]
            exact congrFun (Heap.catalogItemValue_congr (by simp) (by simp)) e1)
    subst hhf
    obtain ⟨hallown, hmap⟩ := Filled.final hfill harr hlen
    obtain ⟨he, hown⟩ := Region.elems_make h.catalogItems arr len harr
    refine ⟨.mk h.catalogItems.length 0 len len, _, t, u, [arr], ?_, rfl,
      by simpa using hown, ?_, ?_⟩
    · simp only [Manifest.cloneCatalogs, Region.make, hrun, Option.map_some']
    · intro e1 he1
      simp only [he] at he1
      exact hallown e1 he1
    · simp only [Region.value, he, hmap]

/-! ## `Manifest.clone` -/

theorem Heap.OwnsManifest.widenManifest {h : Heap} {lo hi : Bounds} {m : Manifest}
    (hm : h.OwnsManifest lo hi m) (lo1 hi1 : Bounds) (hlo : lo1.le lo) (hhi : hi.le hi1) :
    h.OwnsManifest lo1 hi1 m := by
  obtain ⟨h1, h2, h3, h4, h5, h6⟩ := hm
  exact ⟨h1.widen hlo.2.2.2 hhi.2.2.2,
    fun ri hri => ⟨(h2 ri hri).1.widen hlo.1 hhi.1, (h2 ri hri).2.widen hlo.1 hhi.1⟩,
    h3.widen hlo.1 hhi.1, h4.widen hlo.2.2.1 hhi.2.2.1,
    fun ci hci => (h5 ci hci).widenCatalogItem lo1 hi1 hlo hhi, h6.widen hlo.1 hhi.1⟩

theorem Region.agreeOn_append_append {α : Type} (lo hi : Nat) (r t u : Region α) :
    Region.AgreeOn lo hi (r ++ t) (r ++ (t ++ u)) := by
  rw [← List.append_assoc]
  exact Region.agreeOn_append lo hi (r ++ t) u

theorem Manifest.clone_manifest_spec (h : Heap) (m : Manifest) (lo hi : Bounds)
    (hm : h.OwnsManifest lo hi m) :
    ∃ c h1 t u v w, m.clone h = some (c, h1) ∧
      h1 = ⟨h.strings ++ t, h.extraItems ++ u, h.catalogItems ++ v, h.resourceItems ++ w⟩ ∧
      h1.OwnsManifest h.sizes h1.sizes c ∧ h1.manifestValue c = h.manifestValue m := by
  -- the `ResourceItems` block
  obtain ⟨ris, hA, t1, w, hrunA, rfl, ownA, elemsA, valA⟩ :=
    Manifest.cloneResourceItems_spec h m.ResourceItems lo hi hm.1 hm.2.1
  have hmA := Heap.frame_manifest h
    ⟨h.strings ++ t1, h.extraItems, h.catalogItems, h.resourceItems ++ w⟩ lo hi
    ⟨Region.agreeOn_append _ _ _ _, Region.agreeOn_refl _ _ _, Region.agreeOn_refl _ _ _,
      Region.agreeOn_append _ _ _ _⟩ hm
  -- the `Types` block
  obtain ⟨types, t2, hrunB, ownB, valB⟩ :=
    cloneStrings_spec ⟨h.strings ++ t1, h.extraItems, h.catalogItems, h.resourceItems ++ w⟩
      m.Types _ _ hmA.1.2.2.1
  simp only [List.append_assoc] at hrunB ownB valB
  have hmB := Heap.frame_manifest h
    ⟨h.strings ++ (t1 ++ t2), h.extraItems, h.catalogItems, h.resourceItems ++ w⟩ lo hi
    ⟨Region.agreeOn_append _ _ _ _, Region.agreeOn_refl _ _ _, Region.agreeOn_refl _ _ _,
      Region.agreeOn_append _ _ _ _⟩ hm
  -- the `Catalogs` block
  obtain ⟨cats, hC, t3, u, v, hrunC, rfl, ownC, elemsC, valC⟩ :=
    Manifest.cloneCatalogs_spec
      ⟨h.strings ++ (t1 ++ t2), h.extraItems, h.catalogItems, h.resourceItems ++ w⟩
      m.Catalogs lo hi hmB.1.2.2.2.1 hmB.1.2.2.2.2.1
  simp only [List.append_assoc] at hrunC ownC elemsC valC
  have hmC := Heap.frame_manifest h
    ⟨h.strings ++ (t1 ++ (t2 ++ t3)), h.extraItems ++ u, h.catalogItems ++ v,
      h.resourceItems ++ w⟩ lo hi
    ⟨Region.agreeOn_append _ _ _ _, Region.agreeOn_append _ _ _ _,
      Region.agreeOn_append _ _ _ _, Region.agreeOn_append _ _ _ _⟩ hm
  -- the `IDprefixes` block
  obtain ⟨ids, t4, hrunD, ownD, valD⟩ :=
    cloneStrings_spec ⟨h.strings ++ (t1 ++ (t2 ++ t3)), h.extraItems ++ u,
      h.catalogItems ++ v, h.resourceItems ++ w⟩ m.IDprefixes _ _ hmC.1.2.2.2.2.2
  simp only [List.append_assoc] at hrunD ownD valD
  -- the results of the first three blocks, seen in the final heap
  have frameA := Heap.frame_manifest
    ⟨h.strings ++ t1, h.extraItems, h.catalogItems, h.resourceItems ++ w⟩
    ⟨h.strings ++ (t1 ++ (t2 ++ (t3 ++ t4))), h.extraItems ++ u, h.catalogItems ++ v,
      h.resourceItems ++ w⟩ h.sizes
    (Heap.sizes ⟨h.strings ++ t1, h.extraItems, h.catalogItems, h.resourceItems ++ w⟩)
    (m := { m with ResourceItems := ris, Types := .nil, Catalogs := .nil,
                   IDprefixes := .nil })
    ⟨Region.agreeOn_append_append _ _ _ _ _, Region.agreeOn_append _ _ _ _,
      Region.agreeOn_append _ _ _ _, Region.agreeOn_refl _ _ _⟩
    ⟨by simpa using ownA, by simpa using elemsA, trivial, trivial,
      fun ci hci => by simp [Region.elems] at hci, trivial⟩
  have frameB := Region.frame
    (Region.agreeOn_append_append h.strings.length (h.strings ++ (t1 ++ t2)).length
      h.strings (t1 ++ t2) (t3 ++ t4))
    (ownB.widen (by simp) (le_refl _))
  have frameC := Heap.frame_manifest
    ⟨h.strings ++ (t1 ++ (t2 ++ t3)), h.extraItems ++ u, h.catalogItems ++ v,
      h.resourceItems ++ w⟩
    ⟨h.strings ++ (t1 ++ (t2 ++ (t3 ++ t4))), h.extraItems ++ u, h.catalogItems ++ v,
      h.resourceItems ++ w⟩ h.sizes
    (Heap.sizes ⟨h.strings ++ (t1 ++ (t2 ++ t3)), h.extraItems ++ u, h.catalogItems ++ v,
      h.resourceItems ++ w⟩)
    (m := { m with ResourceItems := .nil, Types := .nil, Catalogs := cats,
                   IDprefixes := .nil })
    ⟨(by
        simpa using Region.agreeOn_append_append h.strings.length
          (h.strings ++ (t1 ++ (t2 ++ t3))).length h.strings (t1 ++ (t2 ++ t3)) t4),
      Region.agreeOn_refl _ _ _, Region.agreeOn_refl _ _ _, Region.agreeOn_refl _ _ _⟩
    ⟨trivial, fun ri hri => by simp [Region.elems] at hri, trivial,
      (by simpa using ownC : cats.OwnedIn (h.catalogItems ++ v) _ _).widen (by simp)
        (le_refl _),
      fun ci hci => (elemsC ci hci).widenCatalogItem _ _ (by simp [Bounds.le]) (by simp [Bounds.le]),
      trivial⟩
  refine ⟨{ ID := m.ID, Name := m.Name, Description := m.Description, Version := m.Version,
            ResourceItems := ris, Types := types, Catalogs := cats, IDprefixes := ids,
            Background := m.Background, Logo := m.Logo, ContactEmail := m.ContactEmail,
            BehaviorHints := m.BehaviorHints },
    ⟨h.strings ++ (t1 ++ (t2 ++ (t3 ++ t4))), h.extraItems ++ u, h.catalogItems ++ v,
      h.resourceItems ++ w⟩, t1 ++ (t2 ++ (t3 ++ t4)), u, v, w, ?_, rfl, ?_, ?_⟩
  · simp only [Manifest.clone, hrunA, hrunB, hrunC, hrunD, Option.some_bind]
  · have fA := frameA.1.widenManifest h.sizes
      (Heap.sizes ⟨h.strings ++ (t1 ++ (t2 ++ (t3 ++ t4))), h.extraItems ++ u,
        h.catalogItems ++ v, h.resourceItems ++ w⟩)
      (by simp [Bounds.le]) (by simp [Bounds.le])
    have fC := frameC.1.widenManifest h.sizes
      (Heap.sizes ⟨h.strings ++ (t1 ++ (t2 ++ (t3 ++ t4))), h.extraItems ++ u,
        h.catalogItems ++ v, h.resourceItems ++ w⟩)
      (by simp [Bounds.le]) (by simp [Bounds.le])
    have fB : types.OwnedIn (h.strings ++ (t1 ++ (t2 ++ (t3 ++ t4)))) h.strings.length
        (h.strings ++ (t1 ++ (t2 ++ (t3 ++ t4)))).length := by
      have hB := frameB.1
      simp only [List.append_assoc] at hB
      exact hB.widen (le_refl _) (by simp)
    exact ⟨fA.1, fA.2.1, fB, fC.2.2.2.1, fC.2.2.2.2.1, ownD.widen (by simp) (le_refl _)⟩
  · have vA := congrArg ManifestValue.ResourceItems frameA.2
    have vC := congrArg ManifestValue.Catalogs frameC.2
    have vmA := congrArg ManifestValue.Types hmA.2
    have vmB := congrArg ManifestValue.Catalogs hmB.2
    have vmC := congrArg ManifestValue.IDprefixes hmC.2
    simp only [Heap.manifestValue] at vA vC vmA vmB vmC valA valB valC valD ⊢
    rw [vA, valA, vC, valC, vmB, valD, vmC]
    have vB : (h.strings ++ (t1 ++ (t2 ++ (t3 ++ t4)))).value id types =
        (h.strings ++ (t1 ++ t2)).value id types := by
      cases types with
      | nil => rfl
      | mk a off len cap => simp only [Region.value, List.append_assoc] at frameB ⊢; rw [frameB.2]
    rw [vB, valB, vmA]

theorem Heap.heapAgreeOn_append (lo hi : Bounds) (h : Heap) (t : Region String)
    (u : Region ExtraItem) (v : Region CatalogItem) (w : Region ResourceItem) :
    Heap.AgreeOn lo hi h
      ⟨h.strings ++ t, h.extraItems ++ u, h.catalogItems ++ v, h.resourceItems ++ w⟩ :=
  ⟨Region.agreeOn_append _ _ _ _, Region.agreeOn_append _ _ _ _,
    Region.agreeOn_append _ _ _ _, Region.agreeOn_append _ _ _ _⟩

theorem Heap.AgreeOutside.heapAgreeOn {h h1 : Heap} {lo hi : Bounds}
    (hag : Heap.AgreeOutside lo hi h h1) (lo1 hi1 : Bounds)
    (hdis : hi1.le lo ∨ hi.le lo1) : Heap.AgreeOn lo1 hi1 h h1 := by
  obtain ⟨h1s, h2e, h3c, h4r⟩ := hag
  rcases hdis with hd | hd
  · exact ⟨h1s.agreeOn (Or.inl hd.1), h2e.agreeOn (Or.inl hd.2.1),
      h3c.agreeOn (Or.inl hd.2.2.1), h4r.agreeOn (Or.inl hd.2.2.2)⟩
  · exact ⟨h1s.agreeOn (Or.inr hd.1), h2e.agreeOn (Or.inr hd.2.1),
      h3c.agreeOn (Or.inr hd.2.2.1), h4r.agreeOn (Or.inr hd.2.2.2)⟩

theorem Heap.agreeOutside_strings {h : Heap} {lo hi : Bounds} {ss : Region String}
    (hag : Region.AgreeOutside lo.strings hi.strings h.strings ss) :
    Heap.AgreeOutside lo hi h { h with strings := ss } :=
  ⟨hag, Region.agreeOutside_refl _ _ _, Region.agreeOutside_refl _ _ _,
    Region.agreeOutside_refl _ _ _⟩

theorem Heap.heapAgreeOutside_refl (lo hi : Bounds) (h : Heap) : Heap.AgreeOutside lo hi h h :=
  ⟨Region.agreeOutside_refl _ _ _, Region.agreeOutside_refl _ _ _,
    Region.agreeOutside_refl _ _ _, Region.agreeOutside_refl _ _ _⟩

/-- An assignment through a manifest changes no backing array outside the manifest's
footprint. -/
theorem Manifest.write_agreeOutside (c : Manifest) (h : Heap) (lo hi : Bounds) (w : Write)
    (c2 : Manifest) (h2 : Heap) (hown : h.OwnsManifest lo hi c)
    (hw : c.write h w = some (c2, h2)) : Heap.AgreeOutside lo hi h h2 := by
  obtain ⟨hr, hrs, ht, hc, hcs, hi⟩ := hown
  cases w with
  | resourceItemAt i v =>
    simp only [Manifest.write, Option.map_eq_some', Prod.mk.injEq] at hw
    obtain ⟨rs, hrs1, -, rfl⟩ := hw
    exact ⟨Region.agreeOutside_refl _ _ _, Region.agreeOutside_refl _ _ _,
      Region.agreeOutside_refl _ _ _, Region.assign_agreeOutside hr hrs1⟩
  | resourceItemTypeAt i j v =>
    simp only [Manifest.write, Option.bind_eq_some, Option.map_eq_some', Prod.mk.injEq] at hw
    obtain ⟨ri, hri, ss, hss, -, rfl⟩ := hw
    exact Heap.agreeOutside_strings
      (Region.assign_agreeOutside (hrs ri (Region.index_mem hr hri)).1 hss)
  | resourceItemIDprefixAt i j v =>
    simp only [Manifest.write, Option.bind_eq_some, Option.map_eq_some', Prod.mk.injEq] at hw
    obtain ⟨ri, hri, ss, hss, -, rfl⟩ := hw
    exact Heap.agreeOutside_strings
      (Region.assign_agreeOutside (hrs ri (Region.index_mem hr hri)).2 hss)
  | typeAt i v =>
    simp only [Manifest.write, Option.map_eq_some', Prod.mk.injEq] at hw
    obtain ⟨ss, hss, -, rfl⟩ := hw
    exact Heap.agreeOutside_strings (Region.assign_agreeOutside ht hss)
  | catalogAt i v =>
    simp only [Manifest.write, Option.map_eq_some', Prod.mk.injEq] at hw
    obtain ⟨cs, hcs1, -, rfl⟩ := hw
    exact ⟨Region.agreeOutside_refl _ _ _, Region.agreeOutside_refl _ _ _,
      Region.assign_agreeOutside hc hcs1, Region.agreeOutside_refl _ _ _⟩
  | catalogExtraAt i j v =>
    simp only [Manifest.write, Option.bind_eq_some, Option.map_eq_some', Prod.mk.injEq] at hw
    obtain ⟨ci, hci, es, hes, -, rfl⟩ := hw
    exact ⟨Region.agreeOutside_refl _ _ _,
      Region.assign_agreeOutside (hcs ci (Region.index_mem hc hci)).1 hes,
      Region.agreeOutside_refl _ _ _, Region.agreeOutside_refl _ _ _⟩
  | catalogExtraOptionAt i j k v =>
    simp only [Manifest.write, Option.bind_eq_some, Option.map_eq_some', Prod.mk.injEq] at hw
    obtain ⟨ci, hci, ei, hei, ss, hss, -, rfl⟩ := hw
    have hci1 := hcs ci (Region.index_mem hc hci)
    exact Heap.agreeOutside_strings
      (Region.assign_agreeOutside (hci1.2 ei (Region.index_mem hci1.1 hei)) hss)
  | idPrefixAt i v =>
    simp only [Manifest.write, Option.map_eq_some', Prod.mk.injEq] at hw
    obtain ⟨ss, hss, -, rfl⟩ := hw
    exact Heap.agreeOutside_strings (Region.assign_agreeOutside hi hss)
  | _ =>
    simp only [Manifest.write, Option.some.injEq, Prod.mk.injEq] at hw
    obtain ⟨-, rfl⟩ := hw
    exact Heap.heapAgreeOutside_refl _ _ _

theorem Region.value_rel {α β : Type} {r r1 : Region α} {s s1 : Slice} {f f1 : α → β}
    (hval : r1.value f1 s1 = r.value f s) :
    (s1 = .nil ↔ s = .nil) ∧
    List.Forall₂ (fun a b => f1 a = f b) (r1.elems s1) (r.elems s) := by
  cases s with
  | nil =>
    cases s1 with
    | nil => exact ⟨Iff.rfl, List.Forall₂.nil⟩
    | mk a off len cap => simp [Region.value] at hval
  | mk a off len cap =>
    cases s1 with
    | nil => simp [Region.value] at hval
    | mk a1 off1 len1 cap1 =>
      simp only [Region.value, Option.some.injEq] at hval
      refine ⟨by simp, ?_⟩
      have h2 : List.Forall₂ (fun x y => x = y)
          ((r1.elems (.mk a1 off1 len1 cap1)).map f1)
          ((r.elems (.mk a off len cap)).map f) := by
        rw [hval, List.forall₂_eq_eq_eq]
      rw [List.forall₂_map_left_iff, List.forall₂_map_right_iff] at h2
      exact h2

theorem Region.value_shape {α β : Type} {r r1 : Region α} {lo hi lo1 hi1 : Nat}
    {s s1 : Slice} {f f1 : α → β} (hs : s.OwnedIn r lo hi) (hs1 : s1.OwnedIn r1 lo1 hi1)
    (hval : r1.value f1 s1 = r.value f s) :
    (s1 = .nil ↔ s = .nil) ∧ s1.length = s.length ∧
    List.Forall₂ (fun a b => f1 a = f b) (r1.elems s1) (r.elems s) := by
  obtain ⟨h1, h2⟩ := Region.value_rel hval
  exact ⟨h1, by rw [← Region.elems_length hs, ← Region.elems_length hs1, h2.length_eq], h2⟩

theorem manifest_clone_example :
    manifest.clone exampleHeap =
      some ({ manifest with ResourceItems := .mk 1 0 1 1, Types := .mk 4 0 1 1,
                            Catalogs := .mk 1 0 0 0, IDprefixes := .mk 5 0 1 1 },
        { strings := [["movie"], ["movie"], ["tt"], ["movie"], ["movie"], ["tt"]],
          extraItems := [],
          catalogItems := [[], []],
          resourceItems :=
            [[{ Name := "stream", Types := .mk 0 0 1 1, IDprefixes := .nil }],
             [{ Name := "stream", Types := .mk 3 0 1 1, IDprefixes := .nil }]] }) := by
  decide

/-- C1: on a well-formed manifest `clone` returns, and the clone equals the original field
for field: the scalar fields and `BehaviorHints` are identical, and `ResourceItems`,
`Types`, `Catalogs`, `IDprefixes` have the same length and, read at every depth, equal
elements in the same order. -/
theorem Manifest.clone_equal (h : Heap) (m : Manifest) (hwf : h.WellFormed m) :
    ∃ c h1, m.clone h = some (c, h1) ∧
      c.ID = m.ID ∧ c.Name = m.Name ∧ c.Description = m.Description ∧
      c.Version = m.Version ∧ c.Background = m.Background ∧ c.Logo = m.Logo ∧
      c.ContactEmail = m.ContactEmail ∧ c.BehaviorHints = m.BehaviorHints ∧
      c.ResourceItems.length = m.ResourceItems.length ∧ c.Types.length = m.Types.length ∧
      c.Catalogs.length = m.Catalogs.length ∧ c.IDprefixes.length = m.IDprefixes.length ∧
      h1.manifestValue c = h.manifestValue m := by
  obtain ⟨c, h1, t, u, v, w, hrun, -, hown, hval⟩ := Manifest.clone_manifest_spec h m _ _ hwf
  refine ⟨c, h1, hrun, congrArg ManifestValue.ID hval, congrArg ManifestValue.Name hval,
    congrArg ManifestValue.Description hval, congrArg ManifestValue.Version hval,
    congrArg ManifestValue.Background hval, congrArg ManifestValue.Logo hval,
    congrArg ManifestValue.ContactEmail hval, congrArg ManifestValue.BehaviorHints hval,
    ?_, ?_, ?_, ?_, hval⟩
  · exact (Region.value_shape hwf.1 hown.1 (congrArg ManifestValue.ResourceItems hval)).2.1
  · exact (Region.value_shape hwf.2.2.1 hown.2.2.1 (congrArg ManifestValue.Types hval)).2.1
  · exact (Region.value_shape hwf.2.2.2.1 hown.2.2.2.1
      (congrArg ManifestValue.Catalogs hval)).2.1
  · exact (Region.value_shape hwf.2.2.2.2.2 hown.2.2.2.2.2
      (congrArg ManifestValue.IDprefixes hval)).2.1

theorem Manifest.clone_equal_witness :
    exampleHeap.WellFormed manifest ∧
    ∃ c h1, manifest.clone exampleHeap = some (c, h1) ∧
      h1.manifestValue c = exampleHeap.manifestValue manifest := by
  obtain ⟨c, h1, hrun, hrest⟩ := Manifest.clone_equal exampleHeap manifest (by decide)
  exact ⟨by decide, c, h1, hrun, hrest.2.2.2.2.2.2.2.2.2.2.2.2⟩

theorem Bounds.le_refl (b : Bounds) : b.le b :=
  ⟨Nat.le_refl _, Nat.le_refl _, Nat.le_refl _, Nat.le_refl _⟩

/-- C2: the clone shares no backing array with the original at any depth: every array it
reaches was allocated by `clone`. An assignment through the clone (to an element of any
slice it reaches, or to one of its scalar or `BehaviorHints` fields) leaves the original,
read at every depth, unchanged; and of two clones of the same manifest, an assignment
through either leaves the other and the original unchanged. -/
theorem Manifest.clone_no_alias (h : Heap) (m : Manifest) (w : Write)
    (hwf : h.WellFormed m) :
    ∃ c h1, m.clone h = some (c, h1) ∧ h1.OwnsManifest h.sizes h1.sizes c ∧
      (∀ c2 h2, c.write h1 w = some (c2, h2) → h2.manifestValue m = h.manifestValue m) ∧
      ∃ d h2, m.clone h1 = some (d, h2) ∧ h2.OwnsManifest h1.sizes h2.sizes d ∧
        h2.manifestValue c = h.manifestValue m ∧ h2.manifestValue d = h.manifestValue m ∧
        (∀ c3 h3, c.write h2 w = some (c3, h3) →
          h3.manifestValue d = h2.manifestValue d ∧ h3.manifestValue m = h.manifestValue m) ∧
        (∀ d3 h3, d.write h2 w = some (d3, h3) →
          h3.manifestValue c = h2.manifestValue c ∧ h3.manifestValue m = h.manifestValue m) := by
  obtain ⟨c, h1, t, u, v, x, hrun, rfl, hownc, hvalc⟩ := Manifest.clone_manifest_spec h m _ _ hwf
  obtain ⟨hm1, hvm1⟩ := Heap.frame_manifest h _ Bounds.zero h.sizes
    (Heap.heapAgreeOn_append _ _ h t u v x) hwf
  obtain ⟨d, h2, t2, u2, v2, x2, hrun2, rfl, hownd, hvald⟩ :=
    Manifest.clone_manifest_spec _ m _ _ hm1
  obtain ⟨hm2, hvm2⟩ := Heap.frame_manifest _ _ Bounds.zero h.sizes
    (Heap.heapAgreeOn_append _ _ _ t2 u2 v2 x2) hm1
  obtain ⟨hc2, hvc2⟩ := Heap.frame_manifest _ _ _ _
    (Heap.heapAgreeOn_append _ _ _ t2 u2 v2 x2) hownc
  have hle : h.sizes.le
      (Heap.sizes ⟨h.strings ++ t, h.extraItems ++ u, h.catalogItems ++ v,
        h.resourceItems ++ x⟩) := by
    simp [Bounds.le]
  refine ⟨c, _, hrun, hownc, ?_, d, _, hrun2, hownd, hvc2.trans hvalc, hvald.trans hvm1,
    ?_, ?_⟩
  · intro c2 h2 hw
    have hout := Manifest.write_agreeOutside c _ _ _ w c2 h2 hownc hw
    have hag := hout.heapAgreeOn Bounds.zero h.sizes (Or.inl (Bounds.le_refl _))
    exact ((Heap.frame_manifest _ _ _ _ hag hm1).2).trans hvm1
  · intro c3 h3 hw
    have hout := Manifest.write_agreeOutside c _ _ _ w c3 h3 hc2 hw
    constructor
    · exact (Heap.frame_manifest _ _ _ _
        (hout.heapAgreeOn _ _ (Or.inr (Bounds.le_refl _))) hownd).2
    · exact ((Heap.frame_manifest _ _ _ _
        (hout.heapAgreeOn Bounds.zero h.sizes (Or.inl (Bounds.le_refl _))) hm2).2).trans
        (hvm2.trans hvm1)
  · intro d3 h3 hw
    have hout := Manifest.write_agreeOutside d _ _ _ w d3 h3 hownd hw
    constructor
    · exact (Heap.frame_manifest _ _ _ _
        (hout.heapAgreeOn _ _ (Or.inl (Bounds.le_refl _))) hc2).2
    · exact ((Heap.frame_manifest _ _ _ _
        (hout.heapAgreeOn Bounds.zero h.sizes (Or.inl hle)) hm2).2).trans (hvm2.trans hvm1)

theorem Manifest.clone_no_alias_witness :
    exampleHeap.WellFormed manifest ∧
    ∃ c h1 c2 h2, manifest.clone exampleHeap = some (c, h1) ∧
      c.write h1 (Write.resourceItemTypeAt 0 0 "series") = some (c2, h2) ∧
      h2.manifestValue c2 ≠ h1.manifestValue c ∧
      h2.manifestValue manifest = exampleHeap.manifestValue manifest := by
  obtain ⟨c, h1, hrun, -, hkeep, -⟩ :=
    Manifest.clone_no_alias exampleHeap manifest (Write.resourceItemTypeAt 0 0 "series")
      (by decide)
  have hconc := manifest_clone_example
  rw [hconc] at hrun
  simp only [Option.some.injEq, Prod.mk.injEq] at hrun
  obtain ⟨rfl, rfl⟩ := hrun
  refine ⟨by decide, _, _, _, _, hconc, rfl, by decide, hkeep _ _ rfl⟩

/-- C10: `clone` keeps nil slices nil and non-nil slices non-nil, for the four slices of the
manifest and for the slices of every resource item, catalog item and extra item; the empty
non-nil `Catalogs` of the example manifest stays empty and non-nil in the clone, which
`encoding/json` writes as `[]`, where a nil slice would give `null`. -/
theorem Manifest.clone_preserves_nil (h : Heap) (m : Manifest) (hwf : h.WellFormed m) :
    (∃ c h1, m.clone h = some (c, h1) ∧
      (c.ResourceItems = .nil ↔ m.ResourceItems = .nil) ∧
      (c.Types = .nil ↔ m.Types = .nil) ∧
      (c.Catalogs = .nil ↔ m.Catalogs = .nil) ∧
      (c.IDprefixes = .nil ↔ m.IDprefixes = .nil) ∧
      List.Forall₂
        (fun r1 r0 => (r1.Types = .nil ↔ r0.Types = .nil) ∧
          (r1.IDprefixes = .nil ↔ r0.IDprefixes = .nil))
        (h1.resourceItems.elems c.ResourceItems) (h.resourceItems.elems m.ResourceItems) ∧
      List.Forall₂
        (fun c1 c0 => (c1.Extra = .nil ↔ c0.Extra = .nil) ∧
          List.Forall₂ (fun e1 e0 => e1.Options = .nil ↔ e0.Options = .nil)
            (h1.extraItems.elems c1.Extra) (h.extraItems.elems c0.Extra))
        (h1.catalogItems.elems c.Catalogs) (h.catalogItems.elems m.Catalogs)) ∧
    (manifest.Catalogs ≠ .nil ∧ manifest.Catalogs.length = 0 ∧
      ∃ c h1, manifest.clone exampleHeap = some (c, h1) ∧
        c.Catalogs ≠ .nil ∧ c.Catalogs.length = 0 ∧
        (h1.manifestValue c).Catalogs = some [] ∧
        ∀ encode : CatalogItemValue → String,
          marshalSlice encode (h1.manifestValue c).Catalogs = "[]" ∧
          marshalSlice encode none = "null") := by
  constructor
  · obtain ⟨c, h1, t, u, v, w, hrun, rfl, hown, hval⟩ := Manifest.clone_manifest_spec h m _ _ hwf
    have sR := Region.value_shape hwf.1 hown.1 (congrArg ManifestValue.ResourceItems hval)
    have sT := Region.value_shape hwf.2.2.1 hown.2.2.1 (congrArg ManifestValue.Types hval)
    have sC := Region.value_shape hwf.2.2.2.1 hown.2.2.2.1
      (congrArg ManifestValue.Catalogs hval)
    have sI := Region.value_shape hwf.2.2.2.2.2 hown.2.2.2.2.2
      (congrArg ManifestValue.IDprefixes hval)
    refine ⟨c, _, hrun, sR.1, sT.1, sC.1, sI.1, ?_, ?_⟩
    · exact List.Forall₂.imp
        (fun a b hab =>
          ⟨(Region.value_rel (congrArg ResourceItemValue.Types hab)).1,
            (Region.value_rel (congrArg ResourceItemValue.IDprefixes hab)).1⟩)
        sR.2.2
    · exact List.Forall₂.imp
        (fun a b hab =>
          ⟨(Region.value_rel (congrArg CatalogItemValue.Extra hab)).1,
            List.Forall₂.imp
              (fun e1 e0 he => (Region.value_rel (congrArg ExtraItemValue.Options he)).1)
              (Region.value_rel (congrArg CatalogItemValue.Extra hab)).2⟩)
        sC.2.2
  · refine ⟨by decide, rfl, _, _, manifest_clone_example, by decide, rfl, by decide, ?_⟩
    intro encode
    exact ⟨rfl, rfl⟩

theorem Manifest.clone_preserves_nil_witness :
    exampleHeap.WellFormed manifest ∧
    ∃ c h1, manifest.clone exampleHeap = some (c, h1) ∧
      (c.Catalogs = .nil ↔ manifest.Catalogs = .nil) ∧
      List.Forall₂
        (fun r1 r0 => (r1.Types = .nil ↔ r0.Types = .nil) ∧
          (r1.IDprefixes = .nil ↔ r0.IDprefixes = .nil))
        (h1.resourceItems.elems c.ResourceItems)
        (exampleHeap.resourceItems.elems manifest.ResourceItems) := by
  obtain ⟨c, h1, hrun, -, -, hcat, -, hres, -⟩ :=
    (Manifest.clone_preserves_nil exampleHeap manifest (by decide)).1
  exact ⟨by decide, c, h1, hrun, hcat, hres⟩

/-! ## The example manifest callback -/

theorem createManifestCallback_loop_eq (u : customer) (l : List customer) :
    createManifestCallback.loop (some u) l =
      some (if ∃ a ∈ l, a.UserID = u.UserID ∧ a.Token = u.Token then StatusOK
            else StatusForbidden) := by
  induction l with
  | nil => simp [createManifestCallback.loop]
  | cons a rest ih =>
    unfold createManifestCallback.loop
    simp only
    by_cases hm : u.UserID = a.UserID ∧ u.Token = a.Token
    · have : ∃ b ∈ a :: rest, b.UserID = u.UserID ∧ b.Token = u.Token :=
        ⟨a, List.mem_cons_self _ _, hm.1.symm, hm.2.symm⟩
      rw [if_pos hm, if_pos this]
    · rw [if_neg hm, ih]
      have hiff : (∃ b ∈ a :: rest, b.UserID = u.UserID ∧ b.Token = u.Token) ↔
          ∃ b ∈ rest, b.UserID = u.UserID ∧ b.Token = u.Token := by
        constructor
        · rintro ⟨b, hb, h1, h2⟩
          rcases List.mem_cons.1 hb with rfl | hb
          · exact absurd ⟨h1.symm, h2.symm⟩ hm
          · exact ⟨b, hb, h1, h2⟩
        · rintro ⟨b, hb, h1, h2⟩
          exact ⟨b, List.mem_cons_of_mem _ hb, h1, h2⟩
      by_cases hr : ∃ b ∈ rest, b.UserID = u.UserID ∧ b.Token = u.Token
      · rw [if_pos hr, if_pos (hiff.2 hr)]
      · rw [if_neg hr, if_neg (fun hc => hr (hiff.1 hc))]

/-- C3, as amended: the example manifest callback returns 401 exactly for nil user data,
500 for every non-nil user data that is not a `*customer`, and for every input other than a
nil `*customer` pointer one of 401, 500, 200, 403; on the nil pointer, and only there, it
panics and returns no status. -/
theorem createManifestCallback_status (userData : UserData) (goType : String) :
    (createManifestCallback userData = some 401 ↔ userData = UserData.nil) ∧
    createManifestCallback (UserData.other goType) = some 500 ∧
    (createManifestCallback userData = none ↔ userData = UserData.nilCustomer) ∧
    (userData = UserData.nilCustomer ∨
      createManifestCallback userData = some 401 ∨
      createManifestCallback userData = some 500 ∨
      createManifestCallback userData = some 200 ∨
      createManifestCallback userData = some 403) := by
  cases userData with
  | nil => exact ⟨by decide, rfl, by decide, Or.inr (Or.inl rfl)⟩
  | other t => exact ⟨by simp [createManifestCallback, StatusInternalServerError], rfl,
      by simp [createManifestCallback], Or.inr (Or.inr (Or.inl rfl))⟩
  | nilCustomer => exact ⟨by decide, rfl, by decide, Or.inl rfl⟩
  | customer u =>
    refine ⟨?_, rfl, ?_, Or.inr (Or.inr (Or.inr ?_))⟩
    · simp only [createManifestCallback, createManifestCallback_loop_eq, reduceCtorEq,
        iff_false]
      split <;> simp [StatusOK, StatusForbidden]
    · simp [createManifestCallback, createManifestCallback_loop_eq]
    · simp only [createManifestCallback, createManifestCallback_loop_eq]
      split
      · exact Or.inl rfl
      · exact Or.inr rfl

/-- C3 as stated fails for a nil `*customer` held in the interface: that user data is not
nil, passes the type assertion, and the callback panics on `u.UserID`, so no status, and
none of 401, 500, 200, 403, is returned. -/
theorem createManifestCallback_nilCustomer :
    UserData.nilCustomer ≠ UserData.nil ∧
    createManifestCallback UserData.nilCustomer = none ∧
    ¬ (createManifestCallback UserData.nilCustomer = some 401 ∨
      createManifestCallback UserData.nilCustomer = some 500 ∨
      createManifestCallback UserData.nilCustomer = some 200 ∨
      createManifestCallback UserData.nilCustomer = some 403) := by
  decide

/-- C4: for a `*customer` the example manifest callback returns 200 exactly when one entry
of `allowedUsers` carries both its user id and its token (123/abc or 456/def) and 403
otherwise, as for 123/def; the stream preference plays no role, and the documented test
customer gets 200. -/
theorem createManifestCallback_customer (u : customer) (preference : String) :
    (createManifestCallback (UserData.customer u) = some 200 ↔
      ∃ a ∈ allowedUsers, a.UserID = u.UserID ∧ a.Token = u.Token) ∧
    ((∃ a ∈ allowedUsers, a.UserID = u.UserID ∧ a.Token = u.Token) ↔
      (u.UserID = "123" ∧ u.Token = "abc") ∨ (u.UserID = "456" ∧ u.Token = "def")) ∧
    (createManifestCallback (UserData.customer u) = some 200 ∨
      createManifestCallback (UserData.customer u) = some 403) ∧
    (createManifestCallback (UserData.customer u) = some 403 ↔
      ¬ ∃ a ∈ allowedUsers, a.UserID = u.UserID ∧ a.Token = u.Token) ∧
    createManifestCallback (UserData.customer ⟨"123", "def", preference⟩) = some 403 ∧
    createManifestCallback (UserData.customer { u with PreferredStreamType := preference }) =
      createManifestCallback (UserData.customer u) ∧
    createManifestCallback (UserData.customer ⟨"123", "abc", "http"⟩) = some 200 := by
  refine ⟨?_, ?_, ?_, ?_, ?_, ?_, ?_⟩
  · simp only [createManifestCallback, createManifestCallback_loop_eq]
    split <;> simp_all [StatusOK, StatusForbidden]
  · simp only [allowedUsers, List.mem_cons, List.mem_singleton, List.not_mem_nil, or_false]
    constructor
    · rintro ⟨a, rfl | rfl, h1, h2⟩
      · exact Or.inl ⟨h1.symm, h2.symm⟩
      · exact Or.inr ⟨h1.symm, h2.symm⟩
    · rintro (⟨h1, h2⟩ | ⟨h1, h2⟩)
      · exact ⟨_, Or.inl rfl, h1.symm, h2.symm⟩
      · exact ⟨_, Or.inr rfl, h1.symm, h2.symm⟩
  · simp only [createManifestCallback, createManifestCallback_loop_eq]
    split
    · exact Or.inl rfl
    · exact Or.inr rfl
  · simp only [createManifestCallback, createManifestCallback_loop_eq]
    split <;> simp_all [StatusOK, StatusForbidden]
  · simp [createManifestCallback, createManifestCallback_loop_eq, allowedUsers,
      StatusForbidden]
  · simp only [createManifestCallback, createManifestCallback_loop_eq]
  · decide

/-! ## The example movie stream handler -/

/-- C5: with nil user data the example movie handler returns the two items of `streams` in
order (torrent, then HTTP) and no error for "tt1254207"; for every other id it returns no
items and `NotFound`, whatever the user data; with nil user data the error is never anything
but `NotFound`. -/
theorem createMovieHandler_nil (id : String) (userData : UserData) (anyID : String)
    (hid : id ≠ "tt1254207") :
    createMovieHandler "tt1254207" UserData.nil = some (some streams, none) ∧
    streams.map (fun item => (item.InfoHash, item.URL)) =
      [("dd8255ecdc7ca55fb0bbf81323d87062db1f6d1c", ""),
       ("", "http://distribution.bbb3d.renderfarming.net/video/mp4/bbb_sunflower_1080p_30fps_normal.mp4")] ∧
    createMovieHandler id UserData.nil = some (none, some StreamError.NotFound) ∧
    createMovieHandler id userData = some (none, some StreamError.NotFound) ∧
    ((createMovieHandler anyID UserData.nil).map Prod.snd = some none ∨
      (createMovieHandler anyID UserData.nil).map Prod.snd =
        some (some StreamError.NotFound)) := by
  refine ⟨rfl, by decide, ?_, ?_, ?_⟩
  · simp [createMovieHandler, hid]
  · simp [createMovieHandler, hid]
  · by_cases h : anyID = "tt1254207"
    · exact Or.inl (by simp [createMovieHandler, h])
    · exact Or.inr (by simp [createMovieHandler, h])

theorem createMovieHandler_nil_witness :
    "tt0000000" ≠ "tt1254207" ∧
    createMovieHandler "tt0000000" UserData.nilCustomer =
      some (none, some StreamError.NotFound) :=
  ⟨by decide,
    (createMovieHandler_nil "tt0000000" UserData.nilCustomer "tt1254207"
      (by decide)).2.2.2.1⟩

/-- Both items of `streams` have exactly one stream source, and a file index only with an
info hash. -/
theorem sources_of_streams :
    ∀ item ∈ streams,
      ([item.URL, item.YoutubeID, item.InfoHash, item.ExternalURL].filter
        (fun f => f ≠ "")).length = 1 ∧
      (item.FileIndex ≠ 0 → item.InfoHash ≠ "") := by
  decide

/-- C8: every list the example movie handler returns is a sub-list of `streams` in the
original order without repetition, and each of its items has exactly one of URL, YoutubeID,
InfoHash, ExternalURL non-empty and a non-zero FileIndex only with a non-empty InfoHash. -/
theorem createMovieHandler_items (id : String) (userData : UserData)
    (items : List StreamItem)
    (hret : (createMovieHandler id userData).map Prod.fst = some (some items)) :
    (∀ item ∈ items,
      ([item.URL, item.YoutubeID, item.InfoHash, item.ExternalURL].filter
        (fun f => f ≠ "")).length = 1 ∧
      (item.FileIndex ≠ 0 → item.InfoHash ≠ "")) ∧
    items.Sublist streams ∧ items.Nodup := by
  have hsub : items.Sublist streams ∧ items.Nodup := by
    unfold createMovieHandler at hret
    split at hret
    · cases userData with
      | nil =>
        simp only [Option.map_some', Option.some.injEq] at hret
        subst hret
        exact ⟨List.Sublist.refl _, by decide⟩
      | other t => simp at hret
      | nilCustomer => simp at hret
      | customer u =>
        simp only at hret
        split at hret
        · simp only [Option.map_some', Option.some.injEq] at hret
          subst hret
          exact ⟨by decide, by decide⟩
        · split at hret
          · simp only [Option.map_some', Option.some.injEq] at hret
            subst hret
            exact ⟨by decide, by decide⟩
          · simp only [Option.map_some', Option.some.injEq] at hret
            subst hret
            exact ⟨List.Sublist.refl _, by decide⟩
    · simp at hret
  exact ⟨fun item hitem => sources_of_streams item (hsub.1.subset hitem), hsub⟩

theorem createMovieHandler_items_witness :
    (createMovieHandler "tt1254207" (UserData.customer ⟨"123", "abc", "torrent"⟩)).map
        Prod.fst = some (some [streams.get ⟨0, by decide⟩]) ∧
    [streams.get ⟨0, by decide⟩].Sublist streams :=
  ⟨by decide,
    (createMovieHandler_items "tt1254207" (UserData.customer ⟨"123", "abc", "torrent"⟩)
      [streams.get ⟨0, by decide⟩] (by decide)).2.1⟩

/-! ## The documented test user data -/

/-- C6: the documented test segment is the padded URL-safe Base64 form of the 59-byte JSON
text of the comment, in both directions, and the keys of that text are the JSON field names
of `customer`. -/
theorem testUserData_base64 :
    testUserData =
      "eyJ1c2VySWQiOiIxMjMiLCJ0b2tlbiI6ImFiYyIsInByZWZlcnJlZFN0cmVhbVR5cGUiOiJodHRwIn0=" ∧
    testUserDataJSON =
      "\x7b\"userId\":\"123\",\"token\":\"abc\",\"preferredStreamType\":\"http\"\x7d" ∧
    (asciiBytes testUserDataJSON).length = 59 ∧
    (∀ b ∈ asciiBytes testUserDataJSON, b < 128) ∧
    base64URLDecode testUserData.toList = some (asciiBytes testUserDataJSON) ∧
    base64URLEncode (asciiBytes testUserDataJSON) = testUserData.toList ∧
    (readObject testUserDataJSON.toList).map (fun members => members.map Prod.fst) =
      some customer.jsonFields ∧
    (readObject testUserDataJSON.toList).map customer.ofObject =
      some ⟨"123", "abc", "http"⟩ := by
  refine ⟨rfl, rfl, by decide, by decide, by decide, by decide, by decide, by decide⟩

/-! ## The example counting middleware -/

/-- C9, on the code: over one keep-alive connection the three requests `/manifest.json`,
`/ping`, `/manifest.json` leave a table that reads `/manifest.json: 2, /mani: 1`. The key
stored for `/ping` aliases the request buffer and now reads `/mani`; `/ping`, requested
once, has no entry, and `/mani`, never requested, is listed with 1. `Next` was called once
per request. This holds whatever capacities the allocator gives. -/
theorem createCustomMiddleware_stale_keys (grow : Nat → Nat → Nat) :
    (handleAll grow (Server.empty, 0)
        ["/manifest.json", "/ping", "/manifest.json"]).1.table =
      [("/manifest.json", 2), ("/mani", 1)] ∧
    (handleAll grow (Server.empty, 0)
        ["/manifest.json", "/ping", "/manifest.json"]).1.find "/ping".toList
      (handleAll grow (Server.empty, 0)
        ["/manifest.json", "/ping", "/manifest.json"]).1.stats = none ∧
    ["/manifest.json", "/ping", "/manifest.json"].count "/ping" = 1 ∧
    ["/manifest.json", "/ping", "/manifest.json"].count "/mani" = 0 ∧
    (handleAll grow (Server.empty, 0)
        ["/manifest.json", "/ping", "/manifest.json"]).2 = 3 := by
  have h1 : "/manifest.json".toList =
      ['/', 'm', 'a', 'n', 'i', 'f', 'e', 's', 't', '.', 'j', 's', 'o', 'n'] := rfl
  have h2 : "/ping".toList = ['/', 'p', 'i', 'n', 'g'] := rfl
  have hw1 : wrapInt 1 = 1 := by decide
  have hw2 : wrapInt (1 + 1) = 2 := by decide
  refine ⟨?_, ?_, by decide, by decide, ?_⟩
  · simp [handleAll, Server.receive, Server.empty, createCustomMiddleware, Server.find,
      Server.store, Server.read, Server.table, h1, h2, hw1, hw2]
    decide
  · simp [handleAll, Server.receive, Server.empty, createCustomMiddleware, Server.find,
      Server.store, Server.read, h1, h2, hw1, hw2]
  · simp [handleAll, Server.receive, Server.empty, createCustomMiddleware, Server.find,
      Server.store, Server.read, h1, h2, hw1, hw2]

/-! ## `mediaType.String` -/

theorem mediaType_index_inBounds (mt : Int) (hlo : -2 ^ 63 ≤ mt) (hhi : mt < 2 ^ 63) :
    (0 ≤ cinemeta.mediaType.index mt ∧ cinemeta.mediaType.index mt < 2) ↔
      (mt = 1 ∨ mt = 2) := by
  unfold cinemeta.mediaType.index wrapInt
  norm_num at hlo hhi ⊢
  omega

theorem mediaType_String_isSome (mt : Int) (hlo : -2 ^ 63 ≤ mt) (hhi : mt < 2 ^ 63) :
    (cinemeta.mediaType.String mt).isSome ↔ (mt = 1 ∨ mt = 2) := by
  constructor
  · intro hs
    apply (mediaType_index_inBounds mt hlo hhi).1
    unfold cinemeta.mediaType.String at hs
    simp only at hs
    split at hs
    · rename_i h0
      refine ⟨h0, ?_⟩
      rw [Option.isSome_iff_exists] at hs
      obtain ⟨x, hx⟩ := hs
      have hlt := (List.getElem?_eq_some.1 hx).1
      simp only [List.length_cons, List.length_nil] at hlt
      omega
    · simp at hs
  · rintro (rfl | rfl) <;> decide

theorem mediaType_String_outside (mt : Int) (hlo : -2 ^ 63 ≤ mt) (hhi : mt < 2 ^ 63)
    (hout : mt < 1 ∨ 2 < mt) : cinemeta.mediaType.String mt = none := by
  have hnot : ¬ (cinemeta.mediaType.String mt).isSome := by
    rw [mediaType_String_isSome mt hlo hhi]
    omega
  simpa using hnot

/-- C11: `mt.String()` indexes the two-element array at `mt-1`: "movie" for `movie` (1),
"TV show" for `tvShow` (2); the index is within bounds exactly when `mt` is one of the two
constants, and for the zero value and every value below 1 or above 2 no string is
returned. -/
theorem mediaType_String_index (mt : cinemeta.mediaType)
    (hlo : -2 ^ 63 ≤ mt) (hhi : mt < 2 ^ 63) :
    cinemeta.movie = 1 ∧ cinemeta.tvShow = 2 ∧
    cinemeta.mediaType.String cinemeta.movie = some "movie" ∧
    cinemeta.mediaType.String cinemeta.tvShow = some "TV show" ∧
    ((0 ≤ cinemeta.mediaType.index mt ∧
        cinemeta.mediaType.index mt < (["movie", "TV show"].length : Int)) ↔
      (mt = cinemeta.movie ∨ mt = cinemeta.tvShow)) ∧
    ((cinemeta.mediaType.String mt).isSome ↔ (mt = cinemeta.movie ∨ mt = cinemeta.tvShow)) ∧
    cinemeta.mediaType.String 0 = none ∧
    (mt < 1 ∨ 2 < mt → cinemeta.mediaType.String mt = none) :=
  ⟨by decide, by decide, by decide, by decide, mediaType_index_inBounds mt hlo hhi,
    mediaType_String_isSome mt hlo hhi, by decide, mediaType_String_outside mt hlo hhi⟩

theorem mediaType_String_index_witness :
    (-2 ^ 63 ≤ (3 : Int) ∧ (3 : Int) < 2 ^ 63) ∧ cinemeta.mediaType.String 3 = none :=
  ⟨by decide,
    (mediaType_String_index 3 (by decide) (by decide)).2.2.2.2.2.2.2 (Or.inr (by decide))⟩

end Stremio
